import Mathlib

/-!
# Verification of the mbadocx relationship store and package writer

Shallow embedding of the Go sources `relationships/relationships.go`,
`writer/numbering.go` and the package writer (`Writer.Write`,
`writeConcurrently`, `writeSequentially`, `writeMediaFiles`), together with
proofs of the spec's testable properties about them.

Go maps are modelled as association lists with overwrite-on-insert
semantics; the `items` map of the relationship store is keyed by the
relationship's `ID` field (the Go code always writes `items[rel.ID] = rel`),
so it is modelled as a list of `Relationship` values with upsert keyed on
`ID`.  Go's map iteration order is modelled as insertion order.
-/

namespace Mbadocx

/-! ## Decimal rendering of ids: model of `fmt.Sprintf("rId%d", n)` -/

/-- Decimal digits of `n`, most significant first, fuel-indexed so that the
definition is structurally recursive and kernel-reducible. -/
def natReprAux : Nat → Nat → List Char
  | 0, _ => []
  | fuel+1, n =>
    if n < 10 then [Nat.digitChar n]
    else natReprAux fuel (n / 10) ++ [Nat.digitChar (n % 10)]

/-- Decimal string of `n`, modelling Go's `%d` verb. -/
def natRepr (n : Nat) : String := ⟨natReprAux (n+1) n⟩

/-- `generateID`'s id string: `fmt.Sprintf("rId%d", n)`. -/
def mkId (n : Nat) : String := "rId" ++ natRepr n

theorem string_ext : ∀ a b : String, a.data = b.data → a = b := by
  intro ⟨_⟩ ⟨_⟩ h
  cases h
  rfl

theorem string_data_append (a b : String) : (a ++ b).data = a.data ++ b.data := by
  cases a
  cases b
  rfl

theorem natReprAux_spec : ∀ fuel n, 0 < n → n < 10 ^ fuel →
    natReprAux fuel n = ((Nat.digits 10 n).map Nat.digitChar).reverse := by
  intro fuel
  induction fuel with
  | zero =>
    intro n hn hlt
    simp at hlt
    omega
  | succ f ih =>
    intro n hn hlt
    by_cases hsmall : n < 10
    · have hd : Nat.digits 10 n = [n % 10] ++ Nat.digits 10 (n / 10) := by
        have := Nat.digits_def' (b := 10) (by norm_num) hn
        simpa using this
      have hdiv : n / 10 = 0 := Nat.div_eq_of_lt hsmall
      have hmod : n % 10 = n := Nat.mod_eq_of_lt hsmall
      rw [natReprAux]
      simp [hsmall, hd, hdiv, hmod]
    · have h10 : 10 ≤ n := by omega
      have hdivpos : 0 < n / 10 := Nat.div_pos h10 (by norm_num)
      have hdivlt : n / 10 < 10 ^ f := by
        have : n < 10 ^ f * 10 := by
          have := hlt
          rwa [pow_succ] at this
        exact Nat.div_lt_of_lt_mul (by omega)
      have hd : Nat.digits 10 n = n % 10 :: Nat.digits 10 (n / 10) :=
        Nat.digits_def' (b := 10) (by norm_num) hn
      rw [natReprAux]
      simp only [if_neg (by omega : ¬ n < 10)]
      rw [ih (n / 10) hdivpos hdivlt, hd]
      simp

theorem digitChar_inj_lt : ∀ d1 < 10, ∀ d2 < 10,
    Nat.digitChar d1 = Nat.digitChar d2 → d1 = d2 := by decide

theorem map_digitChar_inj : ∀ l1 l2 : List Nat, (∀ d ∈ l1, d < 10) → (∀ d ∈ l2, d < 10) →
    l1.map Nat.digitChar = l2.map Nat.digitChar → l1 = l2 := by
  intro l1
  induction l1 with
  | nil =>
    intro l2 _ _ h
    cases l2 with
    | nil => rfl
    | cons b bs => simp at h
  | cons a as ih =>
    intro l2 h1 h2 h
    cases l2 with
    | nil => simp at h
    | cons b bs =>
      simp only [List.map_cons, List.cons.injEq] at h
      have ha : a = b := by
        apply digitChar_inj_lt a (h1 a (by simp)) b (h2 b (by simp)) h.1
      have : as = bs := by
        apply ih bs (fun d hd => h1 d (by simp [hd])) (fun d hd => h2 d (by simp [hd])) h.2
      rw [ha, this]

theorem natRepr_inj : ∀ m n, 0 < m → 0 < n → natRepr m = natRepr n → m = n := by
  intro m n hm hn h
  have hmb : m < 10 ^ (m + 1) := by
    calc m < 10 ^ m := Nat.lt_pow_self (by norm_num) m
    _ ≤ 10 ^ (m + 1) := Nat.pow_le_pow_right (by norm_num) (by omega)
  have hnb : n < 10 ^ (n + 1) := by
    calc n < 10 ^ n := Nat.lt_pow_self (by norm_num) n
    _ ≤ 10 ^ (n + 1) := Nat.pow_le_pow_right (by norm_num) (by omega)
  have hdata : natReprAux (m+1) m = natReprAux (n+1) n := congrArg String.data h
  rw [natReprAux_spec (m+1) m hm hmb, natReprAux_spec (n+1) n hn hnb] at hdata
  have hmaps := List.reverse_injective hdata
  have hdig : Nat.digits 10 m = Nat.digits 10 n := by
    apply map_digitChar_inj
    · intro d hd
      exact Nat.digits_lt_base (by norm_num) hd
    · intro d hd
      exact Nat.digits_lt_base (by norm_num) hd
    · exact hmaps
  calc m = Nat.ofDigits 10 (Nat.digits 10 m) := (Nat.ofDigits_digits 10 m).symm
  _ = Nat.ofDigits 10 (Nat.digits 10 n) := by rw [hdig]
  _ = n := Nat.ofDigits_digits 10 n

theorem mkId_inj : ∀ m n, 0 < m → 0 < n → mkId m = mkId n → m = n := by
  intro m n hm hn h
  apply natRepr_inj m n hm hn
  apply string_ext
  have := congrArg String.data h
  rw [mkId, mkId, string_data_append, string_data_append] at this
  exact List.append_cancel_left this

/-! ## Association lists: model of Go `map[string]V`

Insertion overwrites an existing key in place and otherwise appends, so
keys are never duplicated; lookup returns the first (unique) binding. -/

def alLookup {α : Type} : List (String × α) → String → Option α
  | [], _ => none
  | (k, v) :: rest, key => if k = key then some v else alLookup rest key

def alInsert {α : Type} : List (String × α) → String → α → List (String × α)
  | [], key, v => [(key, v)]
  | (k, w) :: rest, key, v =>
    if k = key then (k, v) :: rest else (k, w) :: alInsert rest key v

def alErase {α : Type} : List (String × α) → String → List (String × α)
  | [], _ => []
  | (k, v) :: rest, key => if k = key then rest else (k, v) :: alErase rest key

theorem alLookup_alInsert_self {α : Type} :
    ∀ (l : List (String × α)) (k : String) (v : α), alLookup (alInsert l k v) k = some v := by
  intro l k v
  induction l with
  | nil => simp [alInsert, alLookup]
  | cons p rest ih =>
    obtain ⟨k', w⟩ := p
    by_cases h : k' = k
    · simp [alInsert, alLookup, h]
    · simp [alInsert, alLookup, h, ih]

theorem alLookup_eq_none_of_not_mem {α : Type} :
    ∀ (l : List (String × α)) (k : String), k ∉ l.map Prod.fst → alLookup l k = none := by
  intro l k
  induction l with
  | nil => intro _; rfl
  | cons p rest ih =>
    obtain ⟨k', w⟩ := p
    intro h
    simp only [List.map_cons, List.mem_cons] at h
    push_neg at h
    have hne : k' ≠ k := Ne.symm h.1
    simp [alLookup, hne, ih h.2]

theorem alInsert_fresh_append {α : Type} :
    ∀ (l : List (String × α)) (k : String) (v : α), k ∉ l.map Prod.fst →
      alInsert l k v = l ++ [(k, v)] := by
  intro l k v
  induction l with
  | nil => intro _; rfl
  | cons p rest ih =>
    obtain ⟨k', w⟩ := p
    intro h
    simp only [List.map_cons, List.mem_cons] at h
    push_neg at h
    have hne : k' ≠ k := Ne.symm h.1
    simp [alInsert, hne, ih h.2]

/-! ## Go `path.Clean`, `path.Join`, `path.Ext` and `strings.TrimSuffix`

`path.Join(a, b)` joins the non-empty arguments with `/` and lexically
cleans the result.  The cleaning pass is modelled by splitting on `/` and
processing the components against a stack, which implements the same
specification as Go's lazybuf algorithm: collapse repeated slashes, drop
`.` elements, resolve inner `..` against the preceding element, keep (or,
when rooted, drop) leading `..` elements, and yield `.` (or `/`) for an
empty result. -/

def splitSlash : List Char → List Char → List String
  | [], cur => [⟨cur.reverse⟩]
  | c :: rest, cur =>
    if c = '/' then ⟨cur.reverse⟩ :: splitSlash rest [] else splitSlash rest (c :: cur)

def cleanComponents (rooted : Bool) : List String → List String → List String
  | [], acc => acc.reverse
  | c :: rest, acc =>
    if c = "" ∨ c = "." then cleanComponents rooted rest acc
    else if c = ".." then
      match acc with
      | top :: acc' =>
        if top = ".." then cleanComponents rooted rest (c :: top :: acc')
        else cleanComponents rooted rest acc'
      | [] =>
        if rooted then cleanComponents rooted rest []
        else cleanComponents rooted rest [c]
    else cleanComponents rooted rest (c :: acc)

def joinSlash : List String → String
  | [] => ""
  | [s] => s
  | s :: rest => s ++ "/" ++ joinSlash rest

def headIsSlash (p : String) : Bool :=
  match p.data with
  | '/' :: _ => true
  | _ => false

def pathClean (p : String) : String :=
  if p = "" then "."
  else
    let rooted := headIsSlash p
    let comps := cleanComponents rooted (splitSlash p.data []) []
    let out := joinSlash comps
    if rooted then
      if out = "" then "/" else "/" ++ out
    else if out = "" then "." else out

/-- Go `path.Join` restricted to two elements, as used by
`AddRelationship` for the internal `TargetKey`. -/
def pathJoin (a b : String) : String :=
  if a = "" ∧ b = "" then ""
  else if a = "" then pathClean b
  else if b = "" then pathClean a
  else pathClean (a ++ "/" ++ b)

/-- Go `path.Ext`: the suffix beginning at the final dot in the final
slash-separated element; empty if there is no dot. -/
def pathExtAux : List Char → List Char → String
  | [], _ => ""
  | c :: rest, seen =>
    if c = '/' then ""
    else if c = '.' then ⟨c :: seen⟩
    else pathExtAux rest (c :: seen)

def pathExt (s : String) : String := pathExtAux s.data.reverse []

/-- Go `strings.TrimSuffix`. -/
def trimSuffixStr (s suf : String) : String :=
  if suf.data.length ≤ s.data.length ∧
      s.data.drop (s.data.length - suf.data.length) = suf.data then
    ⟨s.data.take (s.data.length - suf.data.length)⟩
  else s

/-! ## Data model: `relationships/relationships.go` -/

/-- `Relationship` (Go field `Type` is rendered `type`). -/
structure Relationship where
  ID : String
  type : String
  Target : String
  TargetMode : String
  TargetKey : String
deriving DecidableEq, Repr

/-- `Relationships`: the store.  `items` models `map[string]*Relationship`
keyed by `ID`; `byType`, `byTarget` and `external` model the derived index
maps. -/
structure Rels where
  items : List Relationship
  counter : Nat
  nextID : Nat
  byType : List (String × List Relationship)
  byTarget : List (String × Relationship)
  external : List (String × Relationship)
  packageRels : List Relationship
  documentRels : List Relationship
deriving DecidableEq, Repr

def TypeDocument : String :=
  "http://schemas.openxmlformats.org/officeDocument/2006/relationships/officeDocument"
def TypeStyles : String :=
  "http://schemas.openxmlformats.org/officeDocument/2006/relationships/styles"
def TypeNumbering : String :=
  "http://schemas.openxmlformats.org/officeDocument/2006/relationships/numbering"
def TypeSettings : String :=
  "http://schemas.openxmlformats.org/officeDocument/2006/relationships/settings"
def TypeWebSettings : String :=
  "http://schemas.openxmlformats.org/officeDocument/2006/relationships/webSettings"
def TypeFontTable : String :=
  "http://schemas.openxmlformats.org/officeDocument/2006/relationships/fontTable"
def TypeTheme : String :=
  "http://schemas.openxmlformats.org/officeDocument/2006/relationships/theme"
def TypeImage : String :=
  "http://schemas.openxmlformats.org/officeDocument/2006/relationships/image"
def TypeHyperlink : String :=
  "http://schemas.openxmlformats.org/officeDocument/2006/relationships/hyperlink"
def TypeCoreProperties : String :=
  "http://schemas.openxmlformats.org/package/2006/relationships/metadata/core-properties"
def TypeExtProperties : String :=
  "http://schemas.openxmlformats.org/officeDocument/2006/relationships/extended-properties"
def TargetModeInternal : String := "Internal"
def TargetModeExternal : String := "External"

/-- `New()`. -/
def rNew : Rels :=
  { items := [], counter := 0, nextID := 1, byType := [], byTarget := [],
    external := [], packageRels := [], documentRels := [] }

/-- `items[rel.ID] = rel`: upsert keyed on the `ID` field. -/
def itemsInsert (l : List Relationship) (rel : Relationship) : List Relationship :=
  if l.any (fun r => r.ID = rel.ID) then
    l.map (fun r => if r.ID = rel.ID then rel else r)
  else l ++ [rel]

/-- `generateID`. -/
def generateID (s : Rels) : String × Rels :=
  (mkId s.nextID, { s with nextID := s.nextID + 1 })

/-- `AddRelationship`. -/
def addRelationship (s : Rels) (relType target targetMode : String) : Relationship × Rels :=
  let p := generateID s
  let key := if targetMode = TargetModeExternal then target else pathJoin relType target
  let rel : Relationship :=
    { ID := p.1, type := relType, Target := target, TargetMode := targetMode, TargetKey := key }
  let s1 := p.2
  let s2 : Rels :=
    { s1 with
      items := itemsInsert s1.items rel,
      byType := alInsert s1.byType relType ((alLookup s1.byType relType).getD [] ++ [rel]),
      byTarget := alInsert s1.byTarget key rel,
      external :=
        if targetMode = TargetModeExternal then alInsert s1.external target rel
        else s1.external }
  (rel, s2)

/-- `AddPackageRelationship`. -/
def addPackageRelationship (s : Rels) (relType target targetMode : String) :
    Relationship × Rels :=
  let p := addRelationship s relType target targetMode
  (p.1, { p.2 with packageRels := p.2.packageRels ++ [p.1] })

/-- `AddDocumentRelationship`. -/
def addDocumentRelationship (s : Rels) (relType target targetMode : String) :
    Relationship × Rels :=
  let p := addRelationship s relType target targetMode
  (p.1, { p.2 with documentRels := p.2.documentRels ++ [p.1] })

/-- `NewDefault()`. -/
def rNewDefault : Rels :=
  let s1 := (addPackageRelationship rNew TypeDocument ("word/document.xml") TargetModeInternal).2
  let s2 := (addPackageRelationship s1 TypeCoreProperties ("docProps/core.xml") TargetModeInternal).2
  let s3 := (addPackageRelationship s2 TypeExtProperties ("docProps/app.xml") TargetModeInternal).2
  let s4 := (addDocumentRelationship s3 TypeStyles ("styles.xml") TargetModeInternal).2
  let s5 := (addDocumentRelationship s4 TypeSettings ("settings.xml") TargetModeInternal).2
  let s6 := (addDocumentRelationship s5 TypeWebSettings ("webSettings.xml") TargetModeInternal).2
  let s7 := (addDocumentRelationship s6 TypeFontTable ("fontTable.xml") TargetModeInternal).2
  (addDocumentRelationship s7 TypeTheme ("theme/theme1.xml") TargetModeInternal).2

/-- `GetByID`. -/
def getByID (s : Rels) (id : String) : Option Relationship :=
  s.items.find? (fun r => r.ID = id)

/-- `GetByTarget`: first the `byTarget` index, then a scan of `items`
comparing the `Target` field. -/
def getByTarget (s : Rels) (target : String) : Option Relationship :=
  match alLookup s.byTarget target with
  | some rel => some rel
  | none => s.items.find? (fun r => r.Target = target)

/-- `GetExternal`. -/
def getExternal (s : Rels) (url : String) : Option Relationship :=
  alLookup s.external url

/-- `AddImage`. -/
def addImage (s : Rels) (filename : String) : Relationship × Rels :=
  let target := "media/" ++ filename
  match getByTarget s target with
  | some existing => (existing, s)
  | none => addDocumentRelationship s TypeImage target TargetModeInternal

/-- `AddHyperlink`. -/
def addHyperlink (s : Rels) (url : String) : Relationship × Rels :=
  match getExternal s url with
  | some existing => (existing, s)
  | none => addDocumentRelationship s TypeHyperlink url TargetModeExternal

/-- `Remove`. -/
def removeRel (s : Rels) (id : String) : Bool × Rels :=
  match s.items.find? (fun r => r.ID = id) with
  | none => (false, s)
  | some rel =>
    let byType' :=
      match alLookup s.byType rel.type with
      | some rels => alInsert s.byType rel.type (rels.filter (fun r => r.ID ≠ id))
      | none => s.byType
    (true,
      { s with
        items := s.items.filter (fun r => r.ID ≠ id),
        byTarget := alErase s.byTarget rel.TargetKey,
        external :=
          if rel.TargetMode = TargetModeExternal then alErase s.external rel.Target
          else s.external,
        byType := byType',
        packageRels := s.packageRels.filter (fun r => r.ID ≠ id),
        documentRels := s.documentRels.filter (fun r => r.ID ≠ id) })

/-- `Clear`. -/
def clearRels (s : Rels) : Rels :=
  { s with
    items := [], byType := [], byTarget := [], external := [],
    packageRels := [], documentRels := [], counter := 0, nextID := 1 }

/-- `AddUniqueImage`.  `tok` is the value of `uuid.New().String()[:8]`,
passed explicitly since the Go code draws it from a random source. -/
def addUniqueImage (s : Rels) (filename tok : String) : Relationship × Rels :=
  let target := "media/" ++ filename
  let target' :=
    match getByTarget s target with
    | some _ =>
      let ext := pathExt filename
      let base := trimSuffixStr filename ext
      "media/" ++ base ++ "_" ++ tok ++ ext
    | none => target
  addDocumentRelationship s TypeImage target' TargetModeInternal

/-- `GetOrCreateHyperlink`. -/
def getOrCreateHyperlink (s : Rels) (url : String) : Relationship × Rels :=
  match getExternal s url with
  | some existing => (existing, s)
  | none => addHyperlink s url

/-- `findDuplicate`. -/
def findDuplicate (s : Rels) (rel : Relationship) : Option Relationship :=
  match alLookup s.byTarget rel.TargetKey with
  | some existing => some existing
  | none =>
    if rel.TargetMode = TargetModeExternal then alLookup s.external rel.Target
    else none

/-- The body of `Merge`'s loop for one incoming relationship.  The Go
pointer-identity tests `isPackageRel`/`isDocumentRel` against the source
collection's partition slices are modelled by value equality, which agrees
with pointer identity for collections whose partition slices alias their
`items` entries (the only states the API produces). -/
def mergeStep (other : Rels) (acc : Rels) (rel : Relationship) : Rels :=
  match findDuplicate acc rel with
  | some _ => acc
  | none =>
    let p := generateID acc
    let newRel : Relationship :=
      { ID := p.1, type := rel.type, Target := rel.Target,
        TargetMode := rel.TargetMode, TargetKey := rel.TargetKey }
    let acc1 := p.2
    let acc2 : Rels :=
      { acc1 with
        items := itemsInsert acc1.items newRel,
        byType :=
          alInsert acc1.byType newRel.type
            ((alLookup acc1.byType newRel.type).getD [] ++ [newRel]),
        byTarget := alInsert acc1.byTarget newRel.TargetKey newRel,
        external :=
          if newRel.TargetMode = TargetModeExternal then
            alInsert acc1.external newRel.Target newRel
          else acc1.external }
    if rel ∈ other.packageRels then
      { acc2 with packageRels := acc2.packageRels ++ [newRel] }
    else if rel ∈ other.documentRels then
      { acc2 with documentRels := acc2.documentRels ++ [newRel] }
    else acc2

/-- `Merge` (the Go `idMap` is written but never read, and is omitted). -/
def mergeRels (s : Rels) (other : Rels) : Rels :=
  other.items.foldl (mergeStep other) s

/-- `Relationship.Validate`; `none` means success. -/
def relValidate (rel : Relationship) : Option String :=
  if rel.ID = "" then some ("relationship ID is required")
  else if rel.type = "" then some ("relationship type is required")
  else if rel.Target = "" then some ("relationship target is required")
  else if rel.TargetMode ≠ "" ∧ rel.TargetMode ≠ TargetModeInternal ∧
      rel.TargetMode ≠ TargetModeExternal then
    some ("invalid target mode: " ++ rel.TargetMode)
  else none

/-- The duplicate-ID loop of `Relationships.Validate`. -/
def dupCheck : List String → List String → Option String
  | [], _ => none
  | id :: rest, seen => if id ∈ seen then some id else dupCheck rest (id :: seen)

/-- `Relationships.Validate`; `none` means success. -/
def validateRels (s : Rels) : Option String :=
  match dupCheck (s.items.map (fun r => r.ID)) [] with
  | some id => some ("duplicate relationship ID: " ++ id)
  | none =>
    s.items.findSome? (fun rel =>
      (relValidate rel).map (fun e => "invalid relationship " ++ rel.ID ++ ": " ++ e))

/-- `RelationshipXML`: the record marshalled for one relationship; an empty
`TargetMode` models the omitted attribute (`omitempty`). -/
structure RelationshipXML where
  Id : String
  type : String
  Target : String
  TargetMode : String
deriving DecidableEq, Repr

/-- `PackageXML`: the sequence of `Relationship` elements marshalled into
`_rels/.rels` (the `TargetMode` attribute is set only for External). -/
def packageXMLRels (s : Rels) : List RelationshipXML :=
  s.packageRels.map (fun rel =>
    { Id := rel.ID, type := rel.type, Target := rel.Target,
      TargetMode := if rel.TargetMode = TargetModeExternal then rel.TargetMode else "" })

/-- `DocumentXML`: the sequence of `Relationship` elements marshalled into
`word/_rels/document.xml.rels`. -/
def documentXMLRels (s : Rels) : List RelationshipXML :=
  s.documentRels.map (fun rel =>
    { Id := rel.ID, type := rel.type, Target := rel.Target,
      TargetMode := if rel.TargetMode = TargetModeExternal then rel.TargetMode else "" })

/-! ## `writer/numbering.go`: the numbering part -/

/-- `Level` of an abstract numbering definition. -/
structure Level where
  Level : Nat
  Start : Nat
  NumFormat : String
  LevelText : String
  LevelJc : String
  PStyle : String
  IsLegalNum : Bool
  Suffix : String
  BulletChar : String
  Font : String
  IndentLeft : Nat
  IndentHanging : Nat
deriving DecidableEq, Repr

/-- Unset fields of a Go struct literal default to zero values. -/
def level0 : Level :=
  { Level := 0, Start := 0, NumFormat := "", LevelText := "", LevelJc := "",
    PStyle := "", IsLegalNum := false, Suffix := "", BulletChar := "",
    Font := "", IndentLeft := 0, IndentHanging := 0 }

structure AbstractNum where
  ID : Nat
  MultiLevel : Bool
  Levels : List Level
  Name : String
deriving DecidableEq, Repr

structure LevelOverride where
  Level : Nat
  StartOverride : Nat
deriving DecidableEq, Repr

structure Num where
  ID : Nat
  AbstractID : Nat
  Overrides : List LevelOverride
deriving DecidableEq, Repr

/-- `createDefaultAbstractNums`. -/
def createDefaultAbstractNums : List AbstractNum :=
  [ { ID := 0, MultiLevel := true, Name := "Standard Bullet List", Levels :=
      [ { level0 with
          Level := 0, Start := 1, NumFormat := "bullet", LevelText := "•",
          BulletChar := "•", LevelJc := "left", Suffix := "tab", Font := "Symbol",
          IndentLeft := 720, IndentHanging := 360 },
        { level0 with
          Level := 1, Start := 1, NumFormat := "bullet", LevelText := "○",
          BulletChar := "○", LevelJc := "left", Suffix := "tab", Font := "Symbol",
          IndentLeft := 1440, IndentHanging := 360 },
        { level0 with
          Level := 2, Start := 1, NumFormat := "bullet", LevelText := "▪",
          BulletChar := "▪", LevelJc := "left", Suffix := "tab", Font := "Symbol",
          IndentLeft := 2160, IndentHanging := 360 },
        { level0 with
          Level := 3, Start := 1, NumFormat := "bullet", LevelText := "▫",
          BulletChar := "▫", LevelJc := "left", Suffix := "tab", Font := "Symbol",
          IndentLeft := 2880, IndentHanging := 360 } ] },
    { ID := 1, MultiLevel := true, Name := "Decimal Numbering", Levels :=
      [ { level0 with
          Level := 0, Start := 1, NumFormat := "decimal", LevelText := "%1.",
          LevelJc := "left", Suffix := "tab", IndentLeft := 720, IndentHanging := 360 },
        { level0 with
          Level := 1, Start := 1, NumFormat := "decimal", LevelText := "%1.%2",
          LevelJc := "left", Suffix := "tab", IndentLeft := 1440, IndentHanging := 540 },
        { level0 with
          Level := 2, Start := 1, NumFormat := "lowerLetter", LevelText := "%3.",
          LevelJc := "left", Suffix := "tab", IndentLeft := 2160, IndentHanging := 360 },
        { level0 with
          Level := 3, Start := 1, NumFormat := "lowerRoman", LevelText := "%4.",
          LevelJc := "left", Suffix := "tab", IndentLeft := 2880, IndentHanging := 360 } ] },
    { ID := 2, MultiLevel := true, Name := "Legal Style", Levels :=
      [ { level0 with
          Level := 0, Start := 1, NumFormat := "decimal", LevelText := "%1.",
          LevelJc := "left", Suffix := "tab", IsLegalNum := true,
          IndentLeft := 360, IndentHanging := 360 },
        { level0 with
          Level := 1, Start := 1, NumFormat := "decimal", LevelText := "%1.%2",
          LevelJc := "left", Suffix := "tab", IsLegalNum := true,
          IndentLeft := 720, IndentHanging := 432 },
        { level0 with
          Level := 2, Start := 1, NumFormat := "decimal", LevelText := "%1.%2.%3",
          LevelJc := "left", Suffix := "tab", IsLegalNum := true,
          IndentLeft := 1080, IndentHanging := 504 } ] },
    { ID := 3, MultiLevel := false, Name := "Roman Numerals", Levels :=
      [ { level0 with
          Level := 0, Start := 1, NumFormat := "upperRoman", LevelText := "%1.",
          LevelJc := "left", Suffix := "tab", IndentLeft := 720, IndentHanging := 360 } ] },
    { ID := 4, MultiLevel := true, Name := "Custom Symbols", Levels :=
      [ { level0 with
          Level := 0, Start := 1, NumFormat := "bullet", LevelText := "➤",
          BulletChar := "➤", LevelJc := "left", Suffix := "tab", Font := "Wingdings",
          IndentLeft := 720, IndentHanging := 360 },
        { level0 with
          Level := 1, Start := 1, NumFormat := "bullet", LevelText := "✓",
          BulletChar := "✓", LevelJc := "left", Suffix := "tab", Font := "Wingdings",
          IndentLeft := 1440, IndentHanging := 360 },
        { level0 with
          Level := 2, Start := 1, NumFormat := "bullet", LevelText := "★",
          BulletChar := "★", LevelJc := "left", Suffix := "tab", Font := "Wingdings",
          IndentLeft := 2160, IndentHanging := 360 } ] } ]

/-- `createDefaultNums`. -/
def createDefaultNums : List Num :=
  [ { ID := 1, AbstractID := 0, Overrides := [] },
    { ID := 2, AbstractID := 1, Overrides := [] },
    { ID := 3, AbstractID := 2, Overrides := [] },
    { ID := 4, AbstractID := 3, Overrides := [] },
    { ID := 5, AbstractID := 4, Overrides := [] } ]

/-- The document snapshot as seen by the numbering part: the body's
element list (`document.Body().GetElements()`); the element values
themselves are never inspected by this code, so they are carried as
opaque type tags. -/
structure WDocument where
  bodyElements : List String
deriving DecidableEq, Repr

structure NumberingDefinitions where
  AbstractNums : List AbstractNum
  Nums : List Num
  document : Option WDocument
  initialized : Bool
deriving DecidableEq, Repr

/-- `newNumberingDefinitions()`. -/
def newNumberingDefinitions : NumberingDefinitions :=
  { AbstractNums := [], Nums := [], document := none, initialized := false }

/-- `newNumberingDefinitionsForDocument(doc)`. -/
def newNumberingDefinitionsForDocument (doc : WDocument) : NumberingDefinitions :=
  { AbstractNums := [], Nums := [], document := some doc, initialized := false }

/-- `hasNumberedElements`: the Go loop body over
`num.document.Body().GetElements()` is `_ = elem` (it inspects nothing),
and the function then returns `true` unconditionally ("For safety, assume
numbering might be needed"). -/
def hasNumberedElements (num : NumberingDefinitions) : Bool :=
  match num.document with
  | none => true
  | some _doc => true

/-- `ensureInitialized`. -/
def ensureInitialized (num : NumberingDefinitions) : NumberingDefinitions :=
  if num.initialized then num
  else
    let num' :=
      if num.document.isSome ∧ ¬ hasNumberedElements num then
        { num with AbstractNums := [], Nums := [] }
      else
        { num with AbstractNums := createDefaultAbstractNums, Nums := createDefaultNums }
    { num' with initialized := true }

/-- The two shapes `NumberingDefinitions.Byte` can emit: the (almost)
empty `<w:numbering/>` manifest, or the full catalog rendered from the
definition lists. -/
inductive NumberingManifest where
  | minimal : NumberingManifest
  | full : List AbstractNum → List Num → NumberingManifest
deriving DecidableEq, Repr

/-- The branch structure of `NumberingDefinitions.Byte`: initialize, then
emit the minimal manifest iff both definition lists are empty. -/
def numberingManifest (num : NumberingDefinitions) : NumberingManifest :=
  let n := ensureInitialized num
  if n.AbstractNums.isEmpty ∧ n.Nums.isEmpty then NumberingManifest.minimal
  else NumberingManifest.full n.AbstractNums n.Nums

/-! ## The package writer: `Writer.Write`, `writeSequentially`,
`writeConcurrently`, `writeMediaFiles` -/

/-- One ZIP entry: the name passed to `zipWriter.Create` and the bytes
written to the returned entry writer. -/
structure ZipEntry where
  path : String
  data : String
deriving DecidableEq, Repr

/-- The fixed component order built by `Writer.Write` (each component's
`Path()`). -/
def componentPaths : List String :=
  [ "[Content_Types].xml", "_rels/.rels", "word/_rels/document.xml.rels",
    "word/document.xml", "docProps/core.xml", "docProps/app.xml",
    "word/numbering.xml", "word/styles.xml" ]

/-- `writeSequentially` (followed by `writeMediaFiles`): one ZIP entry per
component in list order, then the media entries. -/
def sequentialEntries (components media : List ZipEntry) : List ZipEntry :=
  components ++ media

/-- `writeConcurrently` (followed by `writeMediaFiles`): every goroutine
runs `w.writeToZip(comp)` itself, so the shared ZIP stream receives the
component entries in goroutine completion order — an arbitrary
permutation `sched` of the components chosen by the scheduler.  (The
model even grants each entry atomicity; the real code does not, since
`zip.Writer` is not safe for concurrent use.) -/
def concurrentEntries (sched media : List ZipEntry) : List ZipEntry :=
  sched ++ media

/-- A scheduler outcome is any completion order of the dispatched
goroutines. -/
def validSchedule (components sched : List ZipEntry) : Prop :=
  sched.Perm components

/-- A media resource plus the outcomes the output sink gives its two I/O
steps (`zipWriter.Create` and `writer.Write`); `some e` injects an I/O
failure with message `e`. -/
structure MediaFile where
  fileName : String
  targetPath : String
  rawContent : String
  createErr : Option String
  writeErr : Option String
deriving DecidableEq, Repr

/-- `writeMediaFile`; `some` is the returned error. -/
def writeMediaFile (m : MediaFile) : Option String :=
  let fileName := m.targetPath ++ m.fileName
  match m.createErr with
  | some e => some ("create media file " ++ fileName ++ ": " ++ e)
  | none =>
    match m.writeErr with
    | some e => some ("write media content for " ++ fileName ++ ": " ++ e)
    | none => none

/-- `writeMediaFiles`: the loop returns on the first failing media file. -/
def writeMediaFiles : List MediaFile → Option String
  | [] => none
  | m :: rest =>
    match writeMediaFile m with
    | some e => some ("write media file " ++ m.fileName ++ ": " ++ e)
    | none => writeMediaFiles rest

/-! ## Operation sequences over the relationship store

`Op` is the add/remove operation language of the store's public API; the
partition-directed adds and the deduplicating image/hyperlink adds are
distinguished because the spec's claims quantify over them. -/

inductive Op where
  | addGeneric (relType target targetMode : String)
  | addPackage (relType target targetMode : String)
  | addDocument (relType target targetMode : String)
  | addImage (filename : String)
  | addHyperlink (url : String)
  | remove (id : String)
deriving DecidableEq, Repr

/-- Apply one operation; the first component is `some rel` exactly when the
operation allocated a new relationship (the deduplicating adds return an
existing relationship without allocating when their lookup hits). -/
def applyOp (s : Rels) (op : Op) : Option Relationship × Rels :=
  match op with
  | Op.addGeneric t tg m =>
    let p := addRelationship s t tg m
    (some p.1, p.2)
  | Op.addPackage t tg m =>
    let p := addPackageRelationship s t tg m
    (some p.1, p.2)
  | Op.addDocument t tg m =>
    let p := addDocumentRelationship s t tg m
    (some p.1, p.2)
  | Op.addImage f =>
    let p := addImage s f
    if (getByTarget s ("media/" ++ f)).isSome then (none, p.2) else (some p.1, p.2)
  | Op.addHyperlink u =>
    let p := addHyperlink s u
    if (getExternal s u).isSome then (none, p.2) else (some p.1, p.2)
  | Op.remove id => (none, (removeRel s id).2)

def runOps (s : Rels) : List Op → Rels
  | [] => s
  | op :: rest => runOps (applyOp s op).2 rest

/-- The ids of the relationships each run newly allocates, in order. -/
def createdIds (s : Rels) : List Op → List String
  | [] => []
  | op :: rest =>
    match applyOp s op with
    | (some rel, s') => rel.ID :: createdIds s' rest
    | (none, s') => createdIds s' rest

/-- The id-allocation invariant: every held relationship's id is `rId{n}`
for some `1 ≤ n < nextID`, held ids are pairwise distinct, and the counter
is at least 1. -/
def InvN (s : Rels) : Prop :=
  (∀ r ∈ s.items, ∃ n, 0 < n ∧ n < s.nextID ∧ r.ID = mkId n) ∧
  (s.items.map (fun r => r.ID)).Nodup ∧ 1 ≤ s.nextID

instance (s : Rels) : Decidable (InvN s) := by
  unfold InvN
  have : ∀ r : Relationship, Decidable (∃ n, 0 < n ∧ n < s.nextID ∧ r.ID = mkId n) := by
    intro r
    have h : (∃ n, 0 < n ∧ n < s.nextID ∧ r.ID = mkId n) ↔
        (∃ n, n < s.nextID ∧ (0 < n ∧ r.ID = mkId n)) := by
      constructor
      · rintro ⟨n, h1, h2, h3⟩
        exact ⟨n, h2, h1, h3⟩
      · rintro ⟨n, h2, h1, h3⟩
        exact ⟨n, h1, h2, h3⟩
    rw [h]
    infer_instance
  exact instDecidableAnd

/-- A fresh id is not among the held ids. -/
theorem fresh_not_mem (s : Rels) (h : InvN s) :
    ∀ r ∈ s.items, r.ID ≠ mkId s.nextID := by
  intro r hr heq
  obtain ⟨n, hn0, hnlt, hid⟩ := h.1 r hr
  have := mkId_inj n s.nextID hn0 (by omega) (hid ▸ heq)
  omega

theorem itemsInsert_fresh (l : List Relationship) (rel : Relationship)
    (h : ∀ r ∈ l, r.ID ≠ rel.ID) : itemsInsert l rel = l ++ [rel] := by
  unfold itemsInsert
  rw [if_neg]
  simp only [List.any_eq_true, decide_eq_true_eq, not_exists]
  intro r
  intro hm
  obtain ⟨hr, hid⟩ := hm
  exact h r hr hid

/-- `addRelationship` under the invariant: the new relationship is appended
to `items`, carries id `rId{nextID}`, and the counter advances by one. -/
theorem addRelationship_char (s : Rels) (t tg m : String) (h : InvN s) :
    (addRelationship s t tg m).1.ID = mkId s.nextID ∧
    (addRelationship s t tg m).2.items = s.items ++ [(addRelationship s t tg m).1] ∧
    (addRelationship s t tg m).2.nextID = s.nextID + 1 ∧
    (addRelationship s t tg m).2.packageRels = s.packageRels ∧
    (addRelationship s t tg m).2.documentRels = s.documentRels := by
  unfold addRelationship generateID
  refine ⟨rfl, ?_, rfl, rfl, rfl⟩
  simp only
  apply itemsInsert_fresh
  intro r hr
  exact fresh_not_mem s h r hr

theorem InvN_addRelationship (s : Rels) (t tg m : String) (h : InvN s) :
    InvN (addRelationship s t tg m).2 := by
  obtain ⟨hid, hitems, hnext, _, _⟩ := addRelationship_char s t tg m h
  constructor
  · intro r hr
    rw [hitems] at hr
    rcases List.mem_append.1 hr with hl | hr'
    · obtain ⟨n, hn0, hnlt, hid'⟩ := h.1 r hl
      exact ⟨n, hn0, by omega, hid'⟩
    · have : r = (addRelationship s t tg m).1 := by simpa using hr'
      refine ⟨s.nextID, by have := h.2.2; omega, by omega, ?_⟩
      rw [this, hid]
  · constructor
    · rw [hitems]
      simp only [List.map_append, List.map_cons, List.map_nil]
      rw [List.nodup_append]
      refine ⟨h.2.1, List.nodup_singleton _, ?_⟩
      intro a ha hb
      simp only [List.mem_singleton] at hb
      simp only [List.mem_map] at ha
      obtain ⟨r, hr, hrid⟩ := ha
      have := fresh_not_mem s h r hr
      rw [hrid, hb, hid] at this
      exact this rfl
    · rw [hnext]
      have := h.2.2
      omega

theorem addPackageRelationship_parts (s : Rels) (t tg m : String) :
    (addPackageRelationship s t tg m).1 = (addRelationship s t tg m).1 ∧
    (addPackageRelationship s t tg m).2.items = (addRelationship s t tg m).2.items ∧
    (addPackageRelationship s t tg m).2.nextID = (addRelationship s t tg m).2.nextID := by
  exact ⟨rfl, rfl, rfl⟩

theorem addDocumentRelationship_parts (s : Rels) (t tg m : String) :
    (addDocumentRelationship s t tg m).1 = (addRelationship s t tg m).1 ∧
    (addDocumentRelationship s t tg m).2.items = (addRelationship s t tg m).2.items ∧
    (addDocumentRelationship s t tg m).2.nextID = (addRelationship s t tg m).2.nextID := by
  exact ⟨rfl, rfl, rfl⟩

theorem InvN_of_items_nextID (s s' : Rels) (h : InvN s)
    (hi : s'.items = s.items) (hn : s'.nextID = s.nextID) : InvN s' := by
  refine ⟨?_, ?_, ?_⟩
  · intro r hr
    rw [hi] at hr
    obtain ⟨n, h1, h2, h3⟩ := h.1 r hr
    exact ⟨n, h1, by omega, h3⟩
  · rw [hi]
    exact h.2.1
  · rw [hn]
    exact h.2.2

theorem InvN_removeRel (s : Rels) (id : String) (h : InvN s) :
    InvN (removeRel s id).2 ∧ (removeRel s id).2.nextID = s.nextID := by
  unfold removeRel
  cases hf : s.items.find? (fun r => r.ID = id) with
  | none =>
    exact ⟨h, rfl⟩
  | some rel =>
    simp only
    constructor
    · refine ⟨?_, ?_, ?_⟩
      · intro r hr
        simp only [List.mem_filter] at hr
        exact h.1 r hr.1
      · have hsub : (s.items.filter (fun r => r.ID ≠ id)).map (fun r => r.ID)
            |>.Sublist ((s.items.map (fun r => r.ID))) := by
          exact List.Sublist.map _ (List.filter_sublist s.items)
        exact h.2.1.sublist hsub
      · exact h.2.2
    · trivial

theorem InvN_applyOp (s : Rels) (op : Op) (h : InvN s) :
    InvN (applyOp s op).2 ∧
    (∀ rel, (applyOp s op).1 = some rel →
      rel.ID = mkId s.nextID ∧ (applyOp s op).2.nextID = s.nextID + 1) ∧
    ((applyOp s op).1 = none → (applyOp s op).2.nextID = s.nextID) := by
  cases op with
  | addGeneric t tg m =>
    obtain ⟨hid, _, hnext, _, _⟩ := addRelationship_char s t tg m h
    refine ⟨InvN_addRelationship s t tg m h, ?_, ?_⟩
    · intro rel hrel
      simp only [applyOp, Option.some.injEq] at hrel
      exact ⟨hrel ▸ hid, hnext⟩
    · intro hnone
      simp [applyOp] at hnone
  | addPackage t tg m =>
    obtain ⟨hid, _, hnext, _, _⟩ := addRelationship_char s t tg m h
    obtain ⟨h1, h2, h3⟩ := addPackageRelationship_parts s t tg m
    refine ⟨?_, ?_, ?_⟩
    · exact InvN_of_items_nextID _ _ (InvN_addRelationship s t tg m h) h2 h3
    · intro rel hrel
      simp only [applyOp, Option.some.injEq] at hrel
      refine ⟨?_, ?_⟩
      · rw [← hrel, h1, hid]
      · show (addPackageRelationship s t tg m).2.nextID = s.nextID + 1
        rw [h3, hnext]
    · intro hnone
      simp [applyOp] at hnone
  | addDocument t tg m =>
    obtain ⟨hid, _, hnext, _, _⟩ := addRelationship_char s t tg m h
    obtain ⟨h1, h2, h3⟩ := addDocumentRelationship_parts s t tg m
    refine ⟨?_, ?_, ?_⟩
    · exact InvN_of_items_nextID _ _ (InvN_addRelationship s t tg m h) h2 h3
    · intro rel hrel
      simp only [applyOp, Option.some.injEq] at hrel
      refine ⟨?_, ?_⟩
      · rw [← hrel, h1, hid]
      · show (addDocumentRelationship s t tg m).2.nextID = s.nextID + 1
        rw [h3, hnext]
    · intro hnone
      simp [applyOp] at hnone
  | addImage f =>
    cases hg : getByTarget s ("media/" ++ f) with
    | some existing =>
      have himg : addImage s f = (existing, s) := by
        simp [addImage, hg]
      refine ⟨?_, ?_, ?_⟩
      · simp only [applyOp, himg, hg, Option.isSome_some, if_true]
        exact h
      · intro rel hrel
        simp [applyOp, himg, hg] at hrel
      · intro _
        simp [applyOp, himg, hg]
    | none =>
      have himg : addImage s f =
          addDocumentRelationship s TypeImage ("media/" ++ f) TargetModeInternal := by
        simp [addImage, hg]
      obtain ⟨hid, _, hnext, _, _⟩ :=
        addRelationship_char s TypeImage ("media/" ++ f) TargetModeInternal h
      obtain ⟨h1, h2, h3⟩ :=
        addDocumentRelationship_parts s TypeImage ("media/" ++ f) TargetModeInternal
      refine ⟨?_, ?_, ?_⟩
      · simp only [applyOp, himg, hg, Option.isSome_none, Bool.false_eq_true, if_false]
        exact InvN_of_items_nextID _ _
          (InvN_addRelationship s TypeImage ("media/" ++ f) TargetModeInternal h) h2 h3
      · intro rel hrel
        simp only [applyOp, himg, hg, Option.isSome_none, Bool.false_eq_true, if_false,
          Option.some.injEq] at hrel
        refine ⟨?_, ?_⟩
        · rw [← hrel, h1, hid]
        · simp only [applyOp, himg, hg, Option.isSome_none, Bool.false_eq_true, if_false]
          rw [h3, hnext]
      · intro hnone
        simp [applyOp, himg, hg] at hnone
  | addHyperlink u =>
    cases hg : getExternal s u with
    | some existing =>
      have hh : addHyperlink s u = (existing, s) := by
        simp [addHyperlink, hg]
      refine ⟨?_, ?_, ?_⟩
      · simp only [applyOp, hh, hg, Option.isSome_some, if_true]
        exact h
      · intro rel hrel
        simp [applyOp, hh, hg] at hrel
      · intro _
        simp [applyOp, hh, hg]
    | none =>
      have hh : addHyperlink s u =
          addDocumentRelationship s TypeHyperlink u TargetModeExternal := by
        simp [addHyperlink, hg]
      obtain ⟨hid, _, hnext, _, _⟩ :=
        addRelationship_char s TypeHyperlink u TargetModeExternal h
      obtain ⟨h1, h2, h3⟩ :=
        addDocumentRelationship_parts s TypeHyperlink u TargetModeExternal
      refine ⟨?_, ?_, ?_⟩
      · simp only [applyOp, hh, hg, Option.isSome_none, Bool.false_eq_true, if_false]
        exact InvN_of_items_nextID _ _
          (InvN_addRelationship s TypeHyperlink u TargetModeExternal h) h2 h3
      · intro rel hrel
        simp only [applyOp, hh, hg, Option.isSome_none, Bool.false_eq_true, if_false,
          Option.some.injEq] at hrel
        refine ⟨?_, ?_⟩
        · rw [← hrel, h1, hid]
        · simp only [applyOp, hh, hg, Option.isSome_none, Bool.false_eq_true, if_false]
          rw [h3, hnext]
      · intro hnone
        simp [applyOp, hh, hg] at hnone
  | remove id =>
    obtain ⟨hinv, hnext⟩ := InvN_removeRel s id h
    refine ⟨hinv, ?_, fun _ => hnext⟩
    intro rel hrel
    simp [applyOp] at hrel

theorem applyOp_nextID_mono (s : Rels) (op : Op) (h : InvN s) :
    s.nextID ≤ (applyOp s op).2.nextID := by
  obtain ⟨_, hsome, hnone⟩ := InvN_applyOp s op h
  cases hc : (applyOp s op).1 with
  | some rel =>
    have := (hsome rel hc).2
    omega
  | none =>
    have := hnone hc
    omega

theorem runOps_created (ops : List Op) : ∀ s, InvN s →
    InvN (runOps s ops) ∧
    ∃ ns : List Nat, createdIds s ops = ns.map mkId ∧ List.Chain' (· < ·) ns ∧
      (∀ n ∈ ns, s.nextID ≤ n ∧ 0 < n) := by
  induction ops with
  | nil =>
    intro s h
    exact ⟨h, [], rfl, List.chain'_nil, by simp⟩
  | cons op rest ih =>
    intro s h
    obtain ⟨hinv, hsome, hnone⟩ := InvN_applyOp s op h
    obtain ⟨hrun, ns', hns', hchain', hbound'⟩ := ih (applyOp s op).2 hinv
    constructor
    · simpa [runOps] using hrun
    · cases hc : (applyOp s op).1 with
      | some rel =>
        obtain ⟨hid, hnext⟩ := hsome rel hc
        refine ⟨s.nextID :: ns', ?_, ?_, ?_⟩
        · have : createdIds s (op :: rest) = rel.ID :: createdIds (applyOp s op).2 rest := by
            rcases hmatch : applyOp s op with ⟨fst, snd⟩
            simp only [hmatch] at hc
            subst hc
            simp only [createdIds, hmatch]
          rw [this, hns', hid]
          rfl
        · rw [List.chain'_cons']
          refine ⟨?_, hchain'⟩
          intro b hb
          have hbmem : b ∈ ns' := List.mem_of_mem_head? hb
          have := hbound' b hbmem
          omega
        · intro n hn
          rcases List.mem_cons.1 hn with hcase | hcase
          · subst hcase
            exact ⟨le_refl _, by have := h.2.2; omega⟩
          · have := hbound' n hcase
            omega
      | none =>
        have hnext := hnone hc
        refine ⟨ns', ?_, hchain', ?_⟩
        · have : createdIds s (op :: rest) = createdIds (applyOp s op).2 rest := by
            rcases hmatch : applyOp s op with ⟨fst, snd⟩
            simp only [hmatch] at hc
            subst hc
            simp only [createdIds, hmatch]
          rw [this, hns']
        · intro n hn
          have := hbound' n hn
          omega

theorem InvN_rNew : InvN rNew := by
  refine ⟨?_, ?_, ?_⟩
  · intro r hr
    simp [rNew] at hr
  · simp [rNew]
  · simp [rNew]

/-! ## Claim theorems -/

/-- C1: For every sequence of add and remove operations on a relationship
collection, the ids of the currently-held relationships are pairwise
distinct at every point (every point of a run is the end of a run on a
prefix, and the statement is universally quantified over sequences), and
each allocating add issues id `rId{n}` with `n` strictly increasing over
the run — so an id is never reassigned to a later relationship, even after
the relationship holding it is removed. -/
theorem C1_id_allocation (ops : List Op) :
    ((runOps rNew ops).items.map (fun r => r.ID)).Nodup ∧
    (∃ ns : List Nat, createdIds rNew ops = ns.map mkId ∧ List.Chain' (· < ·) ns) ∧
    (createdIds rNew ops).Nodup := by
  obtain ⟨hinv, ns, hns, hchain, hbound⟩ := runOps_created ops rNew InvN_rNew
  refine ⟨hinv.2.1, ⟨ns, hns, hchain⟩, ?_⟩
  rw [hns]
  have hpw : ns.Pairwise (· < ·) := List.chain'_iff_pairwise.1 hchain
  have : ns.Pairwise (fun a b => mkId a ≠ mkId b) := by
    apply List.Pairwise.imp_of_mem ?_ hpw
    intro a b ha hb hab heq
    have ha' := hbound a ha
    have hb' := hbound b hb
    have := mkId_inj a b ha'.2 hb'.2 heq
    omega
  exact (List.pairwise_map).2 this

/-! ### C3: index/partition consistency -/

/-- Every relationship in the id index lies in exactly one of the two
partitions, and every partition entry is in the id index. -/
def partitionConsistent (s : Rels) : Prop :=
  (∀ r ∈ s.items,
    (r ∈ s.packageRels ∧ r ∉ s.documentRels) ∨ (r ∉ s.packageRels ∧ r ∈ s.documentRels)) ∧
  (∀ r ∈ s.packageRels, r ∈ s.items) ∧
  (∀ r ∈ s.documentRels, r ∈ s.items)

instance (s : Rels) : Decidable (partitionConsistent s) := by
  unfold partitionConsistent
  infer_instance

/-- The partition-directed operations: all of the store's add operations
except the generic `AddRelationship`, plus removal. -/
def isPartitioned : Op → Bool
  | Op.addGeneric _ _ _ => false
  | _ => true

theorem addPackageRelationship_char (s : Rels) (t tg m : String) (h : InvN s) :
    (addPackageRelationship s t tg m).1.ID = mkId s.nextID ∧
    (addPackageRelationship s t tg m).2.items =
      s.items ++ [(addPackageRelationship s t tg m).1] ∧
    (addPackageRelationship s t tg m).2.packageRels =
      s.packageRels ++ [(addPackageRelationship s t tg m).1] ∧
    (addPackageRelationship s t tg m).2.documentRels = s.documentRels := by
  obtain ⟨hid, hitems, _, hpkg, hdoc⟩ := addRelationship_char s t tg m h
  refine ⟨hid, ?_, ?_, ?_⟩
  · show (addRelationship s t tg m).2.items = s.items ++ [(addRelationship s t tg m).1]
    exact hitems
  · show (addRelationship s t tg m).2.packageRels ++ [(addRelationship s t tg m).1] =
      s.packageRels ++ [(addRelationship s t tg m).1]
    rw [hpkg]
  · show (addRelationship s t tg m).2.documentRels = s.documentRels
    exact hdoc

theorem addDocumentRelationship_char (s : Rels) (t tg m : String) (h : InvN s) :
    (addDocumentRelationship s t tg m).1.ID = mkId s.nextID ∧
    (addDocumentRelationship s t tg m).2.items =
      s.items ++ [(addDocumentRelationship s t tg m).1] ∧
    (addDocumentRelationship s t tg m).2.documentRels =
      s.documentRels ++ [(addDocumentRelationship s t tg m).1] ∧
    (addDocumentRelationship s t tg m).2.packageRels = s.packageRels := by
  obtain ⟨hid, hitems, _, hpkg, hdoc⟩ := addRelationship_char s t tg m h
  refine ⟨hid, ?_, ?_, ?_⟩
  · show (addRelationship s t tg m).2.items = s.items ++ [(addRelationship s t tg m).1]
    exact hitems
  · show (addRelationship s t tg m).2.documentRels ++ [(addRelationship s t tg m).1] =
      s.documentRels ++ [(addRelationship s t tg m).1]
    rw [hdoc]
  · show (addRelationship s t tg m).2.packageRels = s.packageRels
    exact hpkg

/-- Consistency is preserved when a fresh relationship is appended to
`items` and to exactly the package partition. -/
theorem partitionConsistent_append_pkg (s : Rels) (rel : Relationship)
    (h : InvN s) (hc : partitionConsistent s) (hid : rel.ID = mkId s.nextID)
    (s' : Rels) (hitems : s'.items = s.items ++ [rel])
    (hpkg : s'.packageRels = s.packageRels ++ [rel])
    (hdoc : s'.documentRels = s.documentRels) :
    partitionConsistent s' := by
  have hfresh : ∀ r ∈ s.items, r ≠ rel := by
    intro r hr heq
    exact fresh_not_mem s h r hr (heq ▸ hid)
  have hrelnotitems : rel ∉ s.items := by
    intro hmem
    exact hfresh rel hmem rfl
  refine ⟨?_, ?_, ?_⟩
  · intro r hr
    rw [hitems] at hr
    rw [hpkg, hdoc]
    rcases List.mem_append.1 hr with hold | hnew
    · rcases hc.1 r hold with ⟨h1, h2⟩ | ⟨h1, h2⟩
      · left
        refine ⟨List.mem_append.2 (Or.inl h1), h2⟩
      · right
        refine ⟨?_, h2⟩
        intro hmem
        rcases List.mem_append.1 hmem with hmem' | hmem'
        · exact h1 hmem'
        · have : r = rel := by simpa using hmem'
          have : r ∈ s.items := hc.2.2 r h2
          exact hfresh r this (by simpa using hmem')
    · have hrrel : r = rel := by simpa using hnew
      subst hrrel
      left
      refine ⟨List.mem_append.2 (Or.inr (by simp)), ?_⟩
      intro hmem
      exact hrelnotitems (hc.2.2 r hmem)
  · intro r hr
    rw [hpkg] at hr
    rw [hitems]
    rcases List.mem_append.1 hr with hold | hnew
    · exact List.mem_append.2 (Or.inl (hc.2.1 r hold))
    · exact List.mem_append.2 (Or.inr hnew)
  · intro r hr
    rw [hdoc] at hr
    rw [hitems]
    exact List.mem_append.2 (Or.inl (hc.2.2 r hr))

/-- Consistency is preserved when a fresh relationship is appended to
`items` and to exactly the document partition. -/
theorem partitionConsistent_append_doc (s : Rels) (rel : Relationship)
    (h : InvN s) (hc : partitionConsistent s) (hid : rel.ID = mkId s.nextID)
    (s' : Rels) (hitems : s'.items = s.items ++ [rel])
    (hdoc : s'.documentRels = s.documentRels ++ [rel])
    (hpkg : s'.packageRels = s.packageRels) :
    partitionConsistent s' := by
  have hfresh : ∀ r ∈ s.items, r ≠ rel := by
    intro r hr heq
    exact fresh_not_mem s h r hr (heq ▸ hid)
  have hrelnotitems : rel ∉ s.items := by
    intro hmem
    exact hfresh rel hmem rfl
  refine ⟨?_, ?_, ?_⟩
  · intro r hr
    rw [hitems] at hr
    rw [hpkg, hdoc]
    rcases List.mem_append.1 hr with hold | hnew
    · rcases hc.1 r hold with ⟨h1, h2⟩ | ⟨h1, h2⟩
      · left
        refine ⟨h1, ?_⟩
        intro hmem
        rcases List.mem_append.1 hmem with hmem' | hmem'
        · exact h2 hmem'
        · have : r ∈ s.items := hc.2.1 r h1
          exact hfresh r this (by simpa using hmem')
      · right
        refine ⟨h1, List.mem_append.2 (Or.inl h2)⟩
    · have hrrel : r = rel := by simpa using hnew
      subst hrrel
      right
      refine ⟨?_, List.mem_append.2 (Or.inr (by simp))⟩
      intro hmem
      exact hrelnotitems (hc.2.1 r hmem)
  · intro r hr
    rw [hpkg] at hr
    rw [hitems]
    exact List.mem_append.2 (Or.inl (hc.2.1 r hr))
  · intro r hr
    rw [hdoc] at hr
    rw [hitems]
    rcases List.mem_append.1 hr with hold | hnew
    · exact List.mem_append.2 (Or.inl (hc.2.2 r hold))
    · exact List.mem_append.2 (Or.inr hnew)

theorem partitionConsistent_removeRel (s : Rels) (id : String)
    (hc : partitionConsistent s) : partitionConsistent (removeRel s id).2 := by
  unfold removeRel
  cases hf : s.items.find? (fun r => r.ID = id) with
  | none => exact hc
  | some rel =>
    simp only
    refine ⟨?_, ?_, ?_⟩
    · intro r hr
      simp only [List.mem_filter, decide_eq_true_eq] at hr
      obtain ⟨hmem, hne⟩ := hr
      rcases hc.1 r hmem with ⟨h1, h2⟩ | ⟨h1, h2⟩
      · left
        constructor
        · simp only [List.mem_filter, decide_eq_true_eq]
          exact ⟨h1, hne⟩
        · intro hbad
          simp only [List.mem_filter, decide_eq_true_eq] at hbad
          exact h2 hbad.1
      · right
        constructor
        · intro hbad
          simp only [List.mem_filter, decide_eq_true_eq] at hbad
          exact h1 hbad.1
        · simp only [List.mem_filter, decide_eq_true_eq]
          exact ⟨h2, hne⟩
    · intro r hr
      simp only [List.mem_filter, decide_eq_true_eq] at hr ⊢
      exact ⟨hc.2.1 r hr.1, hr.2⟩
    · intro r hr
      simp only [List.mem_filter, decide_eq_true_eq] at hr ⊢
      exact ⟨hc.2.2 r hr.1, hr.2⟩

theorem partitionConsistent_applyOp (s : Rels) (op : Op) (h : InvN s)
    (hc : partitionConsistent s) (hp : isPartitioned op = true) :
    partitionConsistent (applyOp s op).2 := by
  cases op with
  | addGeneric t tg m => simp [isPartitioned] at hp
  | addPackage t tg m =>
    obtain ⟨hid, hitems, hpkg, hdoc⟩ := addPackageRelationship_char s t tg m h
    exact partitionConsistent_append_pkg s _ h hc hid _ hitems hpkg hdoc
  | addDocument t tg m =>
    obtain ⟨hid, hitems, hdoc, hpkg⟩ := addDocumentRelationship_char s t tg m h
    exact partitionConsistent_append_doc s _ h hc hid _ hitems hdoc hpkg
  | addImage f =>
    cases hg : getByTarget s ("media/" ++ f) with
    | some existing =>
      have himg : addImage s f = (existing, s) := by
        simp [addImage, hg]
      simpa [applyOp, himg, hg] using hc
    | none =>
      have himg : addImage s f =
          addDocumentRelationship s TypeImage ("media/" ++ f) TargetModeInternal := by
        simp [addImage, hg]
      obtain ⟨hid, hitems, hdoc, hpkg⟩ :=
        addDocumentRelationship_char s TypeImage ("media/" ++ f) TargetModeInternal h
      have : (applyOp s (Op.addImage f)).2 =
          (addDocumentRelationship s TypeImage ("media/" ++ f) TargetModeInternal).2 := by
        simp [applyOp, himg, hg]
      rw [this]
      exact partitionConsistent_append_doc s _ h hc hid _ hitems hdoc hpkg
  | addHyperlink u =>
    cases hg : getExternal s u with
    | some existing =>
      have hh : addHyperlink s u = (existing, s) := by
        simp [addHyperlink, hg]
      simpa [applyOp, hh, hg] using hc
    | none =>
      have hh : addHyperlink s u =
          addDocumentRelationship s TypeHyperlink u TargetModeExternal := by
        simp [addHyperlink, hg]
      obtain ⟨hid, hitems, hdoc, hpkg⟩ :=
        addDocumentRelationship_char s TypeHyperlink u TargetModeExternal h
      have : (applyOp s (Op.addHyperlink u)).2 =
          (addDocumentRelationship s TypeHyperlink u TargetModeExternal).2 := by
        simp [applyOp, hh, hg]
      rw [this]
      exact partitionConsistent_append_doc s _ h hc hid _ hitems hdoc hpkg
  | remove id =>
    have : (applyOp s (Op.remove id)).2 = (removeRel s id).2 := rfl
    rw [this]
    exact partitionConsistent_removeRel s id hc

/-- C3 (amended): starting from the fresh collection, after any sequence of
package-level, document-level, image or hyperlink adds and removes, every
relationship in the id index is in exactly one of the two partitions, and
every partition entry is in the id index.  (The claim as stated also
covers the generic `AddRelationship`, which is refuted by
`C3_generic_add_counterexample`.) -/
theorem C3_partition_consistency (ops : List Op)
    (hp : ∀ op ∈ ops, isPartitioned op = true) :
    partitionConsistent (runOps rNew ops) := by
  suffices h : ∀ s, InvN s → partitionConsistent s →
      partitionConsistent (runOps s ops) by
    apply h rNew InvN_rNew
    refine ⟨?_, ?_, ?_⟩ <;> intro r hr <;> simp [rNew] at hr
  induction ops with
  | nil =>
    intro s _ hc
    exact hc
  | cons op rest ih =>
    intro s hinv hc
    have hophead : isPartitioned op = true := hp op (by simp)
    have hrest : ∀ o ∈ rest, isPartitioned o = true := by
      intro o ho
      exact hp o (by simp [ho])
    show partitionConsistent (runOps (applyOp s op).2 rest)
    have := ih hrest
    exact ih hrest (applyOp s op).2 (InvN_applyOp s op hinv).1
      (partitionConsistent_applyOp s op hinv hc hophead)

/-- C3 counterexample: a single generic `AddRelationship` on the fresh
collection puts the new relationship into the id index but into neither
partition, so "every relationship reachable from the id index is present
in exactly one of the two partitions" fails as stated. -/
theorem C3_generic_add_counterexample :
    ∃ r ∈ (runOps rNew [Op.addGeneric TypeHyperlink ("https://x") TargetModeExternal]).items,
      r ∉ (runOps rNew [Op.addGeneric TypeHyperlink ("https://x") TargetModeExternal]).packageRels ∧
      r ∉ (runOps rNew [Op.addGeneric TypeHyperlink ("https://x") TargetModeExternal]).documentRels := by
  decide

/-- A sample operation sequence without generic adds. -/
def c3ops : List Op :=
  [Op.addImage ("logo.png"), Op.addHyperlink ("https://x"), Op.remove ("rId1")]

/-- Witness for `C3_partition_consistency` at a concrete operation
sequence. -/
theorem C3_partition_consistency_witness :
    (∀ op ∈ c3ops, isPartitioned op = true) ∧ partitionConsistent (runOps rNew c3ops) :=
  ⟨by decide, C3_partition_consistency c3ops (by decide)⟩

/-! ### C5: `GetOrCreateHyperlink` idempotence -/

theorem getExternal_after_create (s : Rels) (url : String) :
    (addDocumentRelationship s TypeHyperlink url TargetModeExternal).2.external =
      alInsert s.external url
        (addDocumentRelationship s TypeHyperlink url TargetModeExternal).1 := by
  simp [addDocumentRelationship, addRelationship, generateID]

/-- C5: for every collection state and every url, calling
`GetOrCreateHyperlink` twice with the same url returns the same
relationship id both times, and the second call leaves the collection
unchanged (it creates no new relationship). -/
theorem C5_hyperlink_idempotent (s : Rels) (url : String) :
    (getOrCreateHyperlink (getOrCreateHyperlink s url).2 url).1.ID =
      (getOrCreateHyperlink s url).1.ID ∧
    (getOrCreateHyperlink (getOrCreateHyperlink s url).2 url).2 =
      (getOrCreateHyperlink s url).2 := by
  cases hg : getExternal s url with
  | some e =>
    have h1 : getOrCreateHyperlink s url = (e, s) := by
      simp [getOrCreateHyperlink, hg]
    rw [h1]
    simp [getOrCreateHyperlink, hg]
  | none =>
    have h1 : getOrCreateHyperlink s url =
        addDocumentRelationship s TypeHyperlink url TargetModeExternal := by
      simp [getOrCreateHyperlink, addHyperlink, hg]
    have hlook : getExternal
        (addDocumentRelationship s TypeHyperlink url TargetModeExternal).2 url =
        some (addDocumentRelationship s TypeHyperlink url TargetModeExternal).1 := by
      unfold getExternal
      rw [getExternal_after_create]
      exact alLookup_alInsert_self _ _ _
    rw [h1]
    simp [getOrCreateHyperlink, hlook]

/-! ### C10: `Clear` resets the id counter -/

/-- C10: `Clear` empties every index and both partitions and resets the
counter state, so the cleared collection equals a freshly constructed one,
the first relationship added after a clear receives id `rId1` again, and —
in contrast — `Remove` leaves the id counter untouched, so removal never
causes id reuse. -/
theorem C10_clear_resets_ids (s : Rels) (t tg m id : String) :
    clearRels s = rNew ∧
    (addRelationship (clearRels s) t tg m).1.ID = "rId1" ∧
    (removeRel s id).2.nextID = s.nextID := by
  refine ⟨rfl, rfl, ?_⟩
  unfold removeRel
  cases hf : s.items.find? (fun r => r.ID = id) with
  | none => rfl
  | some rel => rfl

/-! ### C6: the concrete default-collection scenario -/

/-- The default collection after adding a hyperlink to
`https://example.com` and the image `logo.png`. -/
def c6state : Rels :=
  (addImage (addHyperlink rNewDefault ("https://example.com")).2 ("logo.png")).2

/-- C6: on the scenario state, `Validate` succeeds, the package manifest
holds exactly the three package-level defaults (document,
core-properties, extended-properties) and nothing else, the document
manifest holds exactly the five document-level defaults (styles,
settings, webSettings, fontTable, theme) followed by the hyperlink and
image relationships, and the `TargetMode` attribute is emitted (nonempty)
only for the External hyperlink. -/
theorem C6_default_scenario :
    validateRels c6state = none ∧
    packageXMLRels c6state =
      [ { Id := "rId1", type := TypeDocument, Target := "word/document.xml", TargetMode := "" },
        { Id := "rId2", type := TypeCoreProperties, Target := "docProps/core.xml",
          TargetMode := "" },
        { Id := "rId3", type := TypeExtProperties, Target := "docProps/app.xml",
          TargetMode := "" } ] ∧
    documentXMLRels c6state =
      [ { Id := "rId4", type := TypeStyles, Target := "styles.xml", TargetMode := "" },
        { Id := "rId5", type := TypeSettings, Target := "settings.xml", TargetMode := "" },
        { Id := "rId6", type := TypeWebSettings, Target := "webSettings.xml", TargetMode := "" },
        { Id := "rId7", type := TypeFontTable, Target := "fontTable.xml", TargetMode := "" },
        { Id := "rId8", type := TypeTheme, Target := "theme/theme1.xml", TargetMode := "" },
        { Id := "rId9", type := TypeHyperlink, Target := "https://example.com",
          TargetMode := "External" },
        { Id := "rId10", type := TypeImage, Target := "media/logo.png", TargetMode := "" } ] ∧
    ((packageXMLRels c6state ++ documentXMLRels c6state).filter
      (fun x => x.TargetMode ≠ "")).map (fun x => x.Id) = ["rId9"] := by
  refine ⟨by decide, by decide, by decide, by decide⟩

/-! ### C7: minimal-numbering mode -/

/-- C7: in minimal-numbering mode (`newNumberingDefinitionsForDocument`),
the numbering part emits the full default catalog for every document
snapshot — `hasNumberedElements` inspects nothing and reports `true`
unconditionally — so in particular a document with no list/numbering
feature (an empty body) still gets the full catalog and never the
(almost) empty manifest the claim describes.  (Referenced numbering is
therefore trivially never omitted.) -/
theorem C7_minimal_mode_always_full :
    (∀ doc : WDocument,
      numberingManifest (newNumberingDefinitionsForDocument doc) =
        NumberingManifest.full createDefaultAbstractNums createDefaultNums) ∧
    numberingManifest (newNumberingDefinitionsForDocument { bodyElements := [] }) ≠
      NumberingManifest.minimal := by
  constructor
  · intro doc
    rfl
  · decide

/-! ### C8: media-failure reporting -/

/-- C8 (amended): `writeMediaFiles` reports exactly the first failing
media file in list order (wrapped as `write media file <name>: <err>`) and
stops; later failures are not collected. -/
theorem C8_first_media_error_only (ms : List MediaFile) :
    writeMediaFiles ms =
      ms.findSome? (fun m =>
        (writeMediaFile m).map (fun e => "write media file " ++ m.fileName ++ ": " ++ e)) := by
  induction ms with
  | nil => rfl
  | cons m rest ih =>
    cases h : writeMediaFile m with
    | some e => simp [writeMediaFiles, List.findSome?, h]
    | none => simp [writeMediaFiles, List.findSome?, h, ih]

def mediaA : MediaFile :=
  { fileName := "a.png", targetPath := "word/media/", rawContent := "",
    createErr := some ("disk full"), writeErr := none }

def mediaB : MediaFile :=
  { fileName := "b.png", targetPath := "word/media/", rawContent := "",
    createErr := some ("disk full"), writeErr := none }

def mediaBok : MediaFile :=
  { fileName := "b.png", targetPath := "word/media/", rawContent := "",
    createErr := none, writeErr := none }

/-- C8 counterexample: with two failing media files, the reported error is
exactly the first file's error, and the result is identical whether or not
the second file fails — so the collected failures are not reported
together. -/
theorem C8_counterexample :
    writeMediaFiles [mediaA, mediaB] =
      some ("write media file a.png: create media file word/media/a.png: disk full") ∧
    writeMediaFiles [mediaA, mediaB] = writeMediaFiles [mediaA, mediaBok] := by
  exact ⟨rfl, rfl⟩

/-! ### C2: sequential versus concurrent write strategies -/

/-- The eight components of `Writer.Write` in build order, with their
serialized bytes abstracted (serialization is deterministic per component,
so byte content is independent of the execution strategy; only the entry
order is at issue). -/
def docxComponents : List ZipEntry :=
  componentPaths.map (fun p => { path := p, data := "" })

/-- A scheduler outcome in which the goroutine of the package manifest
finishes before that of the content types. -/
def c2sched : List ZipEntry :=
  match docxComponents with
  | c0 :: c1 :: rest => c1 :: c0 :: rest
  | l => l

/-- C2: the concurrent strategy appends ZIP entries from inside the
goroutines, so the entry order is the goroutine completion order; a valid
schedule exists whose archive entry order differs from the sequential
strategy's fixed order (content types, package manifest, document
manifest, body, metadata, numbering, styles).  The model even grants each
entry write atomicity, which `archive/zip` does not provide under
concurrent use. -/
theorem C2_concurrent_order_not_fixed :
    validSchedule docxComponents c2sched ∧
    (sequentialEntries docxComponents []).map ZipEntry.path = componentPaths ∧
    concurrentEntries c2sched [] ≠ sequentialEntries docxComponents [] := by
  refine ⟨?_, by decide, by decide⟩
  show c2sched.Perm docxComponents
  decide

/-! ### C9: `AddUniqueImage` -/

theorem alLookup_alInsert_ne {α : Type} :
    ∀ (l : List (String × α)) (k : String) (v : α) (q : String), q ≠ k →
      alLookup (alInsert l k v) q = alLookup l q := by
  intro l k v q hq
  induction l with
  | nil =>
    show (if k = q then some v else none) = none
    rw [if_neg (fun hh => hq hh.symm)]
  | cons p rest ih =>
    obtain ⟨k', w⟩ := p
    by_cases hk : k' = k
    · subst hk
      show alLookup (if k' = k' then (k', v) :: rest else (k', w) :: alInsert rest k' v) q =
        (if k' = q then some w else alLookup rest q)
      rw [if_pos rfl]
      show (if k' = q then some v else alLookup rest q) =
        (if k' = q then some w else alLookup rest q)
      rw [if_neg (fun hh => hq hh.symm), if_neg (fun hh => hq hh.symm)]
    · show alLookup (if k' = k then (k', v) :: rest else (k', w) :: alInsert rest k v) q =
        (if k' = q then some w else alLookup rest q)
      rw [if_neg hk]
      show (if k' = q then some w else alLookup (alInsert rest k v) q) =
        (if k' = q then some w else alLookup rest q)
      by_cases hq' : k' = q
      · rw [if_pos hq', if_pos hq']
      · rw [if_neg hq', if_neg hq', ih]

theorem mem_itemsInsert_self (l : List Relationship) (rel : Relationship) :
    rel ∈ itemsInsert l rel := by
  unfold itemsInsert
  by_cases h : l.any (fun r => r.ID = rel.ID)
  · rw [if_pos h]
    simp only [List.any_eq_true, decide_eq_true_eq] at h
    obtain ⟨r0, hr0, hid⟩ := h
    refine List.mem_map.2 ⟨r0, hr0, ?_⟩
    rw [if_pos hid]
  · rw [if_neg h]
    simp

theorem getByTarget_isSome_of_mem (s : Rels) (tg : String) (r : Relationship)
    (hr : r ∈ s.items) (ht : r.Target = tg) : (getByTarget s tg).isSome := by
  unfold getByTarget
  cases halt : alLookup s.byTarget tg with
  | some e => simp
  | none =>
    simp only
    exact List.find?_isSome.2 ⟨r, hr, by simp [ht]⟩

/-- The collision target `media/<base>_<tok><ext>` synthesized by
`AddUniqueImage`. -/
def uniqueTarget (filename tok : String) : String :=
  "media/" ++ trimSuffixStr filename (pathExt filename) ++ "_" ++ tok ++ pathExt filename

theorem addUniqueImage_none (s : Rels) (filename tok : String)
    (h : getByTarget s ("media/" ++ filename) = none) :
    addUniqueImage s filename tok =
      addDocumentRelationship s TypeImage ("media/" ++ filename) TargetModeInternal := by
  simp [addUniqueImage, h]

theorem addUniqueImage_some (s : Rels) (filename tok : String) (e : Relationship)
    (h : getByTarget s ("media/" ++ filename) = some e) :
    addUniqueImage s filename tok =
      addDocumentRelationship s TypeImage (uniqueTarget filename tok) TargetModeInternal := by
  simp [addUniqueImage, h, uniqueTarget]

theorem addDocumentRelationship_fields (s : Rels) (t tg m : String) :
    (addDocumentRelationship s t tg m).1.Target = tg ∧
    (addDocumentRelationship s t tg m).1 ∈ (addDocumentRelationship s t tg m).2.items := by
  refine ⟨rfl, ?_⟩
  show (addDocumentRelationship s t tg m).1 ∈
    itemsInsert s.items (addDocumentRelationship s t tg m).1
  exact mem_itemsInsert_self _ _

theorem trimSuffix_len_ge (s suf : String) :
    s.length ≤ (trimSuffixStr s suf).length + suf.length := by
  unfold trimSuffixStr
  by_cases h : suf.data.length ≤ s.data.length ∧
      s.data.drop (s.data.length - suf.data.length) = suf.data
  · rw [if_pos h]
    show s.data.length ≤ (s.data.take (s.data.length - suf.data.length)).length + suf.data.length
    rw [List.length_take]
    omega
  · rw [if_neg h]
    show s.data.length ≤ s.data.length + suf.data.length
    omega

theorem uniqueTarget_longer (filename tok : String) :
    ("media/" ++ filename).length < (uniqueTarget filename tok).length := by
  unfold uniqueTarget
  rw [String.length_append, String.length_append, String.length_append,
    String.length_append, String.length_append]
  have h1 := trimSuffix_len_ge filename (pathExt filename)
  have h2 : ("media/" : String).length = 6 := rfl
  have h3 : ("_" : String).length = 1 := rfl
  omega

theorem uniqueTarget_token_inj (filename tok1 tok2 : String)
    (hlen : tok1.length = tok2.length)
    (h : uniqueTarget filename tok1 = uniqueTarget filename tok2) : tok1 = tok2 := by
  have hd := congrArg String.data h
  unfold uniqueTarget at hd
  simp only [string_data_append, List.append_assoc] at hd
  have hd1 := List.append_cancel_left hd
  have hd2 := List.append_cancel_left hd1
  have hd3 := List.append_cancel_left hd2
  have := List.append_inj hd3 (by exact hlen)
  exact string_ext _ _ this.1

/-- C9: for every collection state and filename, two `AddUniqueImage`
calls with the same filename return relationships with different targets:
the second call always hits the collision branch and synthesizes
`media/<base>_<tok><ext>` with its own token instead of reusing the
existing relationship.  The tokens are the values of
`uuid.New().String()[:8]` drawn by the two calls, which are 8-character
strings and distinct (the uuid freshness guarantee), carried here as the
two hypotheses. -/
theorem C9_unique_image_targets_differ (s : Rels) (filename tok1 tok2 : String)
    (hne : tok1 ≠ tok2) (hlen : tok1.length = tok2.length) :
    (addUniqueImage s filename tok1).1.Target ≠
      (addUniqueImage (addUniqueImage s filename tok1).2 filename tok2).1.Target := by
  have hlendiff := uniqueTarget_longer filename
  cases h1 : getByTarget s ("media/" ++ filename) with
  | none =>
    rw [addUniqueImage_none s filename tok1 h1]
    obtain ⟨ht1, hmem1⟩ :=
      addDocumentRelationship_fields s TypeImage ("media/" ++ filename) TargetModeInternal
    have hsome : (getByTarget
        (addDocumentRelationship s TypeImage ("media/" ++ filename) TargetModeInternal).2
        ("media/" ++ filename)).isSome :=
      getByTarget_isSome_of_mem _ _ _ hmem1 ht1
    cases h2 : getByTarget
        (addDocumentRelationship s TypeImage ("media/" ++ filename) TargetModeInternal).2
        ("media/" ++ filename) with
    | none =>
      rw [h2] at hsome
      simp at hsome
    | some e2 =>
      rw [addUniqueImage_some _ filename tok2 e2 h2]
      obtain ⟨ht2, _⟩ := addDocumentRelationship_fields
        (addDocumentRelationship s TypeImage ("media/" ++ filename) TargetModeInternal).2
        TypeImage (uniqueTarget filename tok2) TargetModeInternal
      rw [ht1, ht2]
      intro heq
      have := congrArg String.length heq
      have hlt := hlendiff tok2
      omega
  | some e1 =>
    rw [addUniqueImage_some s filename tok1 e1 h1]
    obtain ⟨ht1, _⟩ := addDocumentRelationship_fields s TypeImage
      (uniqueTarget filename tok1) TargetModeInternal
    cases h2 : getByTarget
        (addDocumentRelationship s TypeImage (uniqueTarget filename tok1)
          TargetModeInternal).2 ("media/" ++ filename) with
    | none =>
      rw [addUniqueImage_none _ filename tok2 h2]
      obtain ⟨ht2, _⟩ := addDocumentRelationship_fields
        (addDocumentRelationship s TypeImage (uniqueTarget filename tok1)
          TargetModeInternal).2 TypeImage ("media/" ++ filename) TargetModeInternal
      rw [ht1, ht2]
      intro heq
      have := congrArg String.length heq
      have hlt := hlendiff tok1
      omega
    | some e2 =>
      rw [addUniqueImage_some _ filename tok2 e2 h2]
      obtain ⟨ht2, _⟩ := addDocumentRelationship_fields
        (addDocumentRelationship s TypeImage (uniqueTarget filename tok1)
          TargetModeInternal).2 TypeImage (uniqueTarget filename tok2) TargetModeInternal
      rw [ht1, ht2]
      intro heq
      exact hne (uniqueTarget_token_inj filename tok1 tok2 hlen heq)

/-- Witness for `C9_unique_image_targets_differ` on the fresh collection
with filename `logo.png` and two concrete 8-character tokens. -/
theorem C9_unique_image_witness :
    (("aaaaaaaa" : String) ≠ "bbbbbbbb" ∧
      ("aaaaaaaa" : String).length = ("bbbbbbbb" : String).length) ∧
    (addUniqueImage rNew ("logo.png") ("aaaaaaaa")).1.Target ≠
      (addUniqueImage (addUniqueImage rNew ("logo.png") ("aaaaaaaa")).2
        ("logo.png") ("bbbbbbbb")).1.Target :=
  ⟨⟨by decide, by decide⟩,
    C9_unique_image_targets_differ rNew ("logo.png") ("aaaaaaaa") ("bbbbbbbb")
      (by decide) (by decide)⟩

/-! ### C4: `Merge` -/

/-- The number of distinct logical resources (distinct target keys; for
external relationships the target key is the external target). -/
def distinctResources (s : Rels) : Nat :=
  (s.items.map (fun r => r.TargetKey)).toFinset.card

theorem InvN_append_fresh (s s' : Rels) (rel : Relationship) (h : InvN s)
    (hid : rel.ID = mkId s.nextID) (hitems : s'.items = s.items ++ [rel])
    (hnext : s'.nextID = s.nextID + 1) : InvN s' := by
  refine ⟨?_, ?_, ?_⟩
  · intro r hr
    rw [hitems] at hr
    rcases List.mem_append.1 hr with hl | hr'
    · obtain ⟨n, hn0, hnlt, hid'⟩ := h.1 r hl
      exact ⟨n, hn0, by omega, hid'⟩
    · have : r = rel := by simpa using hr'
      exact ⟨s.nextID, by have := h.2.2; omega, by omega, this ▸ hid⟩
  · rw [hitems]
    simp only [List.map_append, List.map_cons, List.map_nil]
    rw [List.nodup_append]
    refine ⟨h.2.1, List.nodup_singleton _, ?_⟩
    intro a ha hb
    simp only [List.mem_singleton] at hb
    simp only [List.mem_map] at ha
    obtain ⟨r, hr, hrid⟩ := ha
    have := fresh_not_mem s h r hr
    rw [hrid, hb, hid] at this
    exact this rfl
  · rw [hnext]
    have := h.2.2
    omega

theorem mergeStep_items (other acc : Rels) (rel : Relationship) (h : InvN acc) :
    InvN (mergeStep other acc rel) ∧
    ∃ tail, (mergeStep other acc rel).items = acc.items ++ tail := by
  unfold mergeStep
  cases hf : findDuplicate acc rel with
  | some e =>
    exact ⟨h, [], by simp⟩
  | none =>
    simp only
    have hfresh : ∀ r ∈ acc.items, r.ID ≠ mkId acc.nextID := fresh_not_mem acc h
    have hins : itemsInsert acc.items
        { ID := (generateID acc).1, type := rel.type, Target := rel.Target,
          TargetMode := rel.TargetMode, TargetKey := rel.TargetKey } =
        acc.items ++
          [{ ID := (generateID acc).1, type := rel.type, Target := rel.Target,
             TargetMode := rel.TargetMode, TargetKey := rel.TargetKey }] := by
      apply itemsInsert_fresh
      intro r hr
      exact hfresh r hr
    by_cases hp : rel ∈ other.packageRels
    · rw [if_pos hp]
      constructor
      · exact InvN_append_fresh acc _ _ h rfl hins rfl
      · exact ⟨_, hins⟩
    · rw [if_neg hp]
      by_cases hd : rel ∈ other.documentRels
      · rw [if_pos hd]
        constructor
        · exact InvN_append_fresh acc _ _ h rfl hins rfl
        · exact ⟨_, hins⟩
      · rw [if_neg hd]
        constructor
        · exact InvN_append_fresh acc _ _ h rfl hins rfl
        · exact ⟨_, hins⟩

theorem merge_fold_items (other : Rels) :
    ∀ (bs : List Relationship) (acc : Rels), InvN acc →
      InvN (bs.foldl (mergeStep other) acc) ∧
      ∃ tail, (bs.foldl (mergeStep other) acc).items = acc.items ++ tail := by
  intro bs
  induction bs with
  | nil =>
    intro acc h
    exact ⟨h, [], by simp⟩
  | cons rel rest ih =>
    intro acc h
    obtain ⟨h1, t1, ht1⟩ := mergeStep_items other acc rel h
    obtain ⟨h2, t2, ht2⟩ := ih (mergeStep other acc rel) h1
    refine ⟨h2, t1 ++ t2, ?_⟩
    simp only [List.foldl_cons] at ht2 ⊢
    rw [ht2, ht1, List.append_assoc]

/-- Renumber a list of relationships with consecutive ids starting at
`rId{n}`, keeping every other field. -/
def setId (rel : Relationship) (n : Nat) : Relationship := { rel with ID := mkId n }

def renumberFrom (n : Nat) : List Relationship → List Relationship
  | [] => []
  | r :: rest => setId r n :: renumberFrom (n+1) rest

/-- The renumbered package partition `Merge` builds from source partition
membership (index `n` is the id of the first listed relationship). -/
def pkgSelFrom (B : Rels) (n : Nat) : List Relationship → List Relationship
  | [] => []
  | r :: rest =>
    (if r ∈ B.packageRels then [setId r n] else []) ++ pkgSelFrom B (n+1) rest

/-- The renumbered document partition: `Merge` consults the document list
only when the relationship is not in the source package list. -/
def docSelFrom (B : Rels) (n : Nat) : List Relationship → List Relationship
  | [] => []
  | r :: rest =>
    (if r ∈ B.packageRels then []
     else if r ∈ B.documentRels then [setId r n] else []) ++ docSelFrom B (n+1) rest

theorem renumberFrom_append :
    ∀ (l1 l2 : List Relationship) (n : Nat),
      renumberFrom n (l1 ++ l2) = renumberFrom n l1 ++ renumberFrom (n + l1.length) l2 := by
  intro l1
  induction l1 with
  | nil =>
    intro l2 n
    simp [renumberFrom]
  | cons r rest ih =>
    intro l2 n
    simp only [List.cons_append, renumberFrom, List.append_eq, ih, List.length_cons]
    rw [show n + (rest.length + 1) = n + 1 + rest.length by omega]

theorem pkgSelFrom_append (B : Rels) :
    ∀ (l1 l2 : List Relationship) (n : Nat),
      pkgSelFrom B n (l1 ++ l2) = pkgSelFrom B n l1 ++ pkgSelFrom B (n + l1.length) l2 := by
  intro l1
  induction l1 with
  | nil =>
    intro l2 n
    simp [pkgSelFrom]
  | cons r rest ih =>
    intro l2 n
    simp only [List.cons_append, pkgSelFrom, List.append_eq, ih, List.length_cons,
      List.append_assoc]
    rw [show n + (rest.length + 1) = n + 1 + rest.length by omega]

theorem docSelFrom_append (B : Rels) :
    ∀ (l1 l2 : List Relationship) (n : Nat),
      docSelFrom B n (l1 ++ l2) = docSelFrom B n l1 ++ docSelFrom B (n + l1.length) l2 := by
  intro l1
  induction l1 with
  | nil =>
    intro l2 n
    simp [docSelFrom]
  | cons r rest ih =>
    intro l2 n
    simp only [List.cons_append, docSelFrom, List.append_eq, ih, List.length_cons,
      List.append_assoc]
    rw [show n + (rest.length + 1) = n + 1 + rest.length by omega]

theorem renumberFrom_keys :
    ∀ (l : List Relationship) (n : Nat),
      (renumberFrom n l).map (fun r => r.TargetKey) = l.map (fun r => r.TargetKey) := by
  intro l
  induction l with
  | nil => intro n; rfl
  | cons r rest ih =>
    intro n
    simp only [renumberFrom, List.map_cons, ih]
    rfl

theorem mem_renumberFrom :
    ∀ (l : List Relationship) (n : Nat) (r : Relationship), r ∈ renumberFrom n l →
      ∃ j b, n ≤ j ∧ j < n + l.length ∧ b ∈ l ∧ r = setId b j := by
  intro l
  induction l with
  | nil =>
    intro n r h
    simp [renumberFrom] at h
  | cons b0 rest ih =>
    intro n r h
    simp only [renumberFrom, List.mem_cons] at h
    rcases h with h | h
    · exact ⟨n, b0, le_refl _, by simp, by simp, h⟩
    · obtain ⟨j, b, hj1, hj2, hb, hr⟩ := ih (n+1) r h
      exact ⟨j, b, by omega, by simp; omega, by simp [hb], hr⟩

/-- The relationship `Merge` allocates for an incoming `rel`. -/
def mergeNewRel (acc : Rels) (rel : Relationship) : Relationship :=
  { ID := mkId acc.nextID, type := rel.type, Target := rel.Target,
    TargetMode := rel.TargetMode, TargetKey := rel.TargetKey }

theorem mergeStep_fields (B acc : Rels) (rel : Relationship)
    (hdup : findDuplicate acc rel = none) :
    (mergeStep B acc rel).items = itemsInsert acc.items (mergeNewRel acc rel) ∧
    (mergeStep B acc rel).nextID = acc.nextID + 1 ∧
    (mergeStep B acc rel).byTarget =
      alInsert acc.byTarget rel.TargetKey (mergeNewRel acc rel) ∧
    (mergeStep B acc rel).external =
      (if rel.TargetMode = TargetModeExternal then
        alInsert acc.external rel.Target (mergeNewRel acc rel)
      else acc.external) ∧
    (mergeStep B acc rel).packageRels =
      acc.packageRels ++ (if rel ∈ B.packageRels then [mergeNewRel acc rel] else []) ∧
    (mergeStep B acc rel).documentRels =
      acc.documentRels ++
        (if rel ∈ B.packageRels then []
         else if rel ∈ B.documentRels then [mergeNewRel acc rel] else []) := by
  unfold mergeStep
  rw [hdup]
  by_cases hp : rel ∈ B.packageRels
  · simp [hp, mergeNewRel, generateID]
  · by_cases hd : rel ∈ B.documentRels
    · simp [hp, hd, mergeNewRel, generateID]
    · simp [hp, hd, mergeNewRel, generateID]

/-- The invariant tying the merge accumulator to the processed prefix
`done` of the source items (receiver started from the fresh collection). -/
def MergeAcc (B : Rels) (done : List Relationship) (acc : Rels) : Prop :=
  acc.items = renumberFrom 1 done ∧
  acc.nextID = done.length + 1 ∧
  acc.byTarget = (renumberFrom 1 done).map (fun r => (r.TargetKey, r)) ∧
  acc.external = ((renumberFrom 1 done).filter
      (fun r => r.TargetMode = TargetModeExternal)).map (fun r => (r.Target, r)) ∧
  acc.packageRels = pkgSelFrom B 1 done ∧
  acc.documentRels = docSelFrom B 1 done

theorem mergeAcc_byTarget_keys (B : Rels) (done : List Relationship) (acc : Rels)
    (hacc : MergeAcc B done acc) :
    acc.byTarget.map Prod.fst = done.map (fun r => r.TargetKey) := by
  rw [hacc.2.2.1, List.map_map]
  have : (Prod.fst ∘ fun r : Relationship => (r.TargetKey, r)) =
      fun r : Relationship => r.TargetKey := rfl
  rw [this, renumberFrom_keys]

theorem mergeStep_acc (B : Rels)
    (hkeys : (B.items.map (fun r => r.TargetKey)).Nodup)
    (hwfExt : ∀ r ∈ B.items, r.TargetMode = TargetModeExternal → r.TargetKey = r.Target)
    (done : List Relationship) (rel : Relationship) (rest : List Relationship)
    (hsplit : B.items = done ++ rel :: rest)
    (acc : Rels) (hacc : MergeAcc B done acc) :
    MergeAcc B (done ++ [rel]) (mergeStep B acc rel) := by
  obtain ⟨hi, hn, hbt, hext, hpk, hdc⟩ := hacc
  -- the incoming target key is fresh with respect to the processed prefix
  have hKnotin : rel.TargetKey ∉ done.map (fun r => r.TargetKey) := by
    intro hmem
    have hnd : ((done.map (fun r => r.TargetKey)) ++
        (rel.TargetKey :: rest.map (fun r => r.TargetKey))).Nodup := by
      have := hkeys
      rw [hsplit] at this
      simpa using this
    have hdisj := (List.nodup_append.1 hnd).2.2
    exact hdisj hmem (by simp)
  have hbtKeys : acc.byTarget.map Prod.fst = done.map (fun r => r.TargetKey) :=
    mergeAcc_byTarget_keys B done acc ⟨hi, hn, hbt, hext, hpk, hdc⟩
  -- keys of the external index are target keys of the processed prefix
  have hextKeysSub : ∀ t ∈ acc.external.map Prod.fst, t ∈ done.map (fun r => r.TargetKey) := by
    intro t ht
    rw [hext, List.map_map] at ht
    have : (Prod.fst ∘ fun r : Relationship => (r.Target, r)) =
        fun r : Relationship => r.Target := rfl
    rw [this] at ht
    simp only [List.mem_map] at ht
    obtain ⟨r', hr', hrt⟩ := ht
    simp only [List.mem_filter, decide_eq_true_eq] at hr'
    obtain ⟨hr'mem, hr'ext⟩ := hr'
    obtain ⟨j, b, _, _, hb, hre⟩ := mem_renumberFrom _ _ _ hr'mem
    have hbB : b ∈ B.items := by
      rw [hsplit]
      exact List.mem_append.2 (Or.inl hb)
    have hbext : b.TargetMode = TargetModeExternal := by
      rw [hre] at hr'ext
      exact hr'ext
    have hbkey := hwfExt b hbB hbext
    have hbt' : b.Target = t := by
      rw [hre] at hrt
      exact hrt
    have : b.TargetKey = t := by rw [hbkey, hbt']
    rw [← this]
    exact List.mem_map_of_mem _ hb
  have hrelB : rel ∈ B.items := by
    rw [hsplit]
    exact List.mem_append.2 (Or.inr (by simp))
  -- `findDuplicate` misses
  have hdup : findDuplicate acc rel = none := by
    unfold findDuplicate
    have h1 : alLookup acc.byTarget rel.TargetKey = none := by
      apply alLookup_eq_none_of_not_mem
      rw [hbtKeys]
      exact hKnotin
    rw [h1]
    by_cases hx : rel.TargetMode = TargetModeExternal
    · rw [if_pos hx]
      apply alLookup_eq_none_of_not_mem
      intro hmem
      have := hextKeysSub _ hmem
      rw [hwfExt rel hrelB hx] at hKnotin
      exact hKnotin this
    · rw [if_neg hx]
  obtain ⟨hfi, hfn, hfbt, hfe, hfp, hfd⟩ := mergeStep_fields B acc rel hdup
  have hnew : mergeNewRel acc rel = setId rel (done.length + 1) := by
    unfold mergeNewRel setId
    rw [hn]
  have hrenum : renumberFrom 1 (done ++ [rel]) =
      renumberFrom 1 done ++ [setId rel (done.length + 1)] := by
    rw [renumberFrom_append]
    simp [renumberFrom, Nat.add_comm]
  have hfreshIds : ∀ r ∈ acc.items, r.ID ≠ (mergeNewRel acc rel).ID := by
    intro r hr
    rw [hi] at hr
    obtain ⟨j, b, hj1, hj2, _, hre⟩ := mem_renumberFrom _ _ _ hr
    have hrid : r.ID = mkId j := by rw [hre]; rfl
    have hnid : (mergeNewRel acc rel).ID = mkId acc.nextID := rfl
    rw [hrid, hnid, hn]
    intro heq
    have := mkId_inj j (done.length + 1) (by omega) (by omega) heq
    omega
  refine ⟨?_, ?_, ?_, ?_, ?_, ?_⟩
  · rw [hfi, itemsInsert_fresh _ _ hfreshIds, hi, hrenum, hnew]
  · rw [hfn, hn]
    simp
  · rw [hfbt]
    have hfreshKey : rel.TargetKey ∉ acc.byTarget.map Prod.fst := by
      rw [hbtKeys]
      exact hKnotin
    rw [alInsert_fresh_append _ _ _ hfreshKey, hbt, hrenum]
    simp only [List.map_append, List.map_cons, List.map_nil]
    rw [hnew]
    rfl
  · rw [hfe, hrenum]
    by_cases hx : rel.TargetMode = TargetModeExternal
    · rw [if_pos hx]
      have hfreshT : rel.Target ∉ acc.external.map Prod.fst := by
        intro hmem
        have := hextKeysSub _ hmem
        rw [← hwfExt rel hrelB hx] at this
        exact hKnotin this
      rw [alInsert_fresh_append _ _ _ hfreshT, hext]
      rw [List.filter_append]
      have : List.filter (fun r => decide (r.TargetMode = TargetModeExternal))
          [setId rel (done.length + 1)] = [setId rel (done.length + 1)] := by
        simp [setId, hx]
      rw [this]
      simp only [List.map_append, List.map_cons, List.map_nil]
      rw [hnew]
      rfl
    · rw [if_neg hx, hext]
      rw [List.filter_append]
      have : List.filter (fun r => decide (r.TargetMode = TargetModeExternal))
          [setId rel (done.length + 1)] = [] := by
        simp [setId, hx]
      rw [this]
      simp
  · rw [hfp, hpk, pkgSelFrom_append]
    have : pkgSelFrom B (1 + done.length) [rel] =
        (if rel ∈ B.packageRels then [setId rel (1 + done.length)] else []) := by
      simp [pkgSelFrom]
    rw [this, hnew]
    by_cases hp : rel ∈ B.packageRels
    · rw [if_pos hp, if_pos hp, Nat.add_comm 1 done.length]
    · rw [if_neg hp, if_neg hp]
  · rw [hfd, hdc, docSelFrom_append]
    have : docSelFrom B (1 + done.length) [rel] =
        (if rel ∈ B.packageRels then []
         else if rel ∈ B.documentRels then [setId rel (1 + done.length)] else []) := by
      simp [docSelFrom]
    rw [this, hnew]
    by_cases hp : rel ∈ B.packageRels
    · rw [if_pos hp, if_pos hp]
    · rw [if_neg hp, if_neg hp]
      by_cases hd : rel ∈ B.documentRels
      · rw [if_pos hd, if_pos hd, Nat.add_comm 1 done.length]
      · rw [if_neg hd, if_neg hd]

theorem merge_fold_acc (B : Rels)
    (hkeys : (B.items.map (fun r => r.TargetKey)).Nodup)
    (hwfExt : ∀ r ∈ B.items, r.TargetMode = TargetModeExternal → r.TargetKey = r.Target) :
    ∀ (rest done : List Relationship) (acc : Rels), B.items = done ++ rest →
      MergeAcc B done acc →
      MergeAcc B (done ++ rest) (rest.foldl (mergeStep B) acc) := by
  intro rest
  induction rest with
  | nil =>
    intro done acc _ hacc
    simpa using hacc
  | cons rel rest' ih =>
    intro done acc hsplit hacc
    have hstep := mergeStep_acc B hkeys hwfExt done rel rest' hsplit acc hacc
    have hsplit' : B.items = (done ++ [rel]) ++ rest' := by
      rw [hsplit]
      simp
    have hres := ih (done ++ [rel]) (mergeStep B acc rel) hsplit' hstep
    have heq : (done ++ [rel]) ++ rest' = done ++ rel :: rest' := by simp
    rw [heq] at hres
    simpa using hres

/-- C4: (1) merging a collection `B` into `A` never decreases the number
of distinct logical resources (distinct target keys) held by `A`; (2)
merging `B` into a fresh empty collection yields a collection isomorphic
to `B`: the items carry the same kind, target, target mode and target key
in the same order with ids renumbered `rId1, rId2, …`, and partition
membership is taken from `B`'s partitions (package first, as the source's
`else if` does).  Part (2) assumes `B` satisfies the collection
invariants the spec states in its data model: target keys are pairwise
distinct (dedup is enforced at insertion) and an external relationship's
target key is its target. -/
theorem C4_merge_correctness :
    (∀ A B : Rels, InvN A → distinctResources A ≤ distinctResources (mergeRels A B)) ∧
    (∀ B : Rels,
      (B.items.map (fun r => r.TargetKey)).Nodup →
      (∀ r ∈ B.items, r.TargetMode = TargetModeExternal → r.TargetKey = r.Target) →
      (mergeRels rNew B).items = renumberFrom 1 B.items ∧
      (mergeRels rNew B).packageRels = pkgSelFrom B 1 B.items ∧
      (mergeRels rNew B).documentRels = docSelFrom B 1 B.items) := by
  constructor
  · intro A B hA
    obtain ⟨_, tail, htail⟩ := merge_fold_items B B.items A hA
    unfold distinctResources mergeRels
    rw [htail]
    apply Finset.card_le_card
    intro k hk
    simp only [List.mem_toFinset] at hk ⊢
    simp only [List.map_append]
    exact List.mem_append.2 (Or.inl hk)
  · intro B hkeys hwfExt
    have hbase : MergeAcc B [] rNew := by
      refine ⟨rfl, rfl, rfl, rfl, rfl, rfl⟩
    have := merge_fold_acc B hkeys hwfExt B.items [] rNew (by simp) hbase
    rw [List.nil_append] at this
    exact ⟨this.1, this.2.2.2.2.1, this.2.2.2.2.2⟩

/-- A sample source collection for the merge witness: one image and one
hyperlink. -/
def c4B : Rels := (addHyperlink (addImage rNew ("a.png")).2 ("https://x")).2

/-- Witness for `C4_merge_correctness` at concrete collections. -/
theorem C4_merge_witness :
    (InvN rNew ∧
      distinctResources rNew ≤ distinctResources (mergeRels rNew c4B)) ∧
    ((c4B.items.map (fun r => r.TargetKey)).Nodup ∧
      (∀ r ∈ c4B.items, r.TargetMode = TargetModeExternal → r.TargetKey = r.Target) ∧
      (mergeRels rNew c4B).items = renumberFrom 1 c4B.items ∧
      (mergeRels rNew c4B).packageRels = pkgSelFrom c4B 1 c4B.items ∧
      (mergeRels rNew c4B).documentRels = docSelFrom c4B 1 c4B.items) := by
  refine ⟨⟨by decide, C4_merge_correctness.1 rNew c4B (by decide)⟩, by decide, by decide, ?_⟩
  exact C4_merge_correctness.2 c4B (by decide) (by decide)

end Mbadocx
